import Mathlib

set_option maxRecDepth 8000

/-!
Verification development for the Vixely media-metadata prober
(`vixely-core`): a shallow embedding of `src/common.rs`,
`src/video/mp4.rs`, `src/video/matroska.rs` and `src/video/mod.rs`,
followed by theorems about the embedded program.

Modelling conventions:
* A byte buffer is a `List Nat`; every read reduces the entry mod 256,
  mirroring the `u8` domain of the Rust slices.
* `usize`/`u64` arithmetic is modelled on unbounded `Nat`; truncating
  casts that matter (`u64 as u32`) are written with an explicit `% 2 ^ 32`.
* A Rust panic (an out-of-bounds slice expression `&data[a..b]`) is an
  explicit outcome: computations that contain such a slice return
  `Res α`, whose `crash` constructor marks the panic.
* `f64` is modelled exactly: an IEEE bit pattern decodes to an exact
  rational, `nan`/`posInf`/`negInf`, and arithmetic is exact rational
  arithmetic with IEEE special-value propagation (rounding of finite
  results is below this abstraction).
* The `while` loops of the walkers are modelled as fuel-indexed
  structural recursion; the wrappers supply fuel that provably suffices
  (see the fuel-stability lemmas), so the fuel is invisible on the
  Rust-reachable domain.
-/

/-- Outcome of a Rust computation that can panic: `crash` is a panic,
`ok` a normal return. -/
inductive Res (α : Type) where
  | crash : Res α
  | ok : α → Res α
deriving DecidableEq, Repr

/-- Sequencing of possibly-panicking computations: a panic aborts. -/
def Res.bind {α β : Type} : Res α → (α → Res β) → Res β
  | .crash, _ => .crash
  | .ok a, f => f a

/-- The Rust slice expression `&data[a..b]`: panics (crashes) unless
`a ≤ b ∧ b ≤ data.len()`. -/
def sliceR (data : List Nat) (a b : Nat) : Res (List Nat) :=
  if a ≤ b ∧ b ≤ data.length then .ok ((data.take b).drop a) else .crash

/-- Read of byte `i` from a buffer, reduced to the `u8` domain. -/
def byteAt (data : List Nat) (i : Nat) : Nat := data.getD i 0 % 256

/-- Exact rational multiplication, written through `Rat.divInt` so
that it evaluates by kernel reduction; `ratMul_eq` identifies it with
`·*·` on `ℚ`. -/
def ratMul (a b : ℚ) : ℚ := Rat.divInt (a.num * b.num) ((a.den : ℤ) * (b.den : ℤ))

/-- Exact rational division, written through `Rat.divInt` so that it
evaluates by kernel reduction; `ratDiv_eq` identifies it with `·/·` on
`ℚ`. -/
def ratDiv (a b : ℚ) : ℚ := Rat.divInt (a.num * (b.den : ℤ)) ((a.den : ℤ) * b.num)

/-- Exact rational strict comparison by cross-multiplication;
`ratLt_iff` identifies it with `· < ·` on `ℚ`. -/
def ratLt (a b : ℚ) : Bool := decide (a.num * (b.den : ℤ) < b.num * (a.den : ℤ))

/-- Exact rational comparison by cross-multiplication; `ratLe_iff`
identifies it with `· ≤ ·` on `ℚ`. -/
def ratLe (a b : ℚ) : Bool := decide (a.num * (b.den : ℤ) ≤ b.num * (a.den : ℤ))

/-- Exact model of an `f64` value: an exact rational, or one of the
IEEE special values. -/
inductive F64 where
  | fin : ℚ → F64
  | posInf : F64
  | negInf : F64
  | nan : F64
deriving DecidableEq, Repr

/-- `f64::is_finite`. -/
def F64.isFinite : F64 → Bool
  | .fin _ => true
  | _ => false

/-- IEEE `<` on `f64`: any comparison with NaN is false. -/
def F64.blt : F64 → F64 → Bool
  | .nan, _ => false
  | _, .nan => false
  | .negInf, .negInf => false
  | .negInf, _ => true
  | _, .negInf => false
  | .posInf, _ => false
  | .fin _, .posInf => true
  | .fin a, .fin b => ratLt a b

/-- IEEE `<=` on `f64`: any comparison with NaN is false. -/
def F64.ble : F64 → F64 → Bool
  | .nan, _ => false
  | _, .nan => false
  | .negInf, _ => true
  | _, .negInf => false
  | _, .posInf => true
  | .posInf, _ => false
  | .fin a, .fin b => ratLe a b

/-- IEEE multiplication, exact on finite values. -/
def F64.mul : F64 → F64 → F64
  | .nan, _ => .nan
  | _, .nan => .nan
  | .fin a, .fin b => .fin (ratMul a b)
  | .fin a, .posInf => if a = 0 then .nan else if ratLt a 0 then .negInf else .posInf
  | .fin a, .negInf => if a = 0 then .nan else if ratLt a 0 then .posInf else .negInf
  | .posInf, .fin b => if b = 0 then .nan else if ratLt b 0 then .negInf else .posInf
  | .negInf, .fin b => if b = 0 then .nan else if ratLt b 0 then .posInf else .negInf
  | .posInf, .posInf => .posInf
  | .posInf, .negInf => .negInf
  | .negInf, .posInf => .negInf
  | .negInf, .negInf => .posInf

/-- IEEE division, exact on finite values (a single zero, so
`x / 0` carries the sign of `x` alone). -/
def F64.div : F64 → F64 → F64
  | .nan, _ => .nan
  | _, .nan => .nan
  | .fin a, .fin b =>
      if b = 0 then (if a = 0 then .nan else if ratLt a 0 then .negInf else .posInf)
      else .fin (ratDiv a b)
  | .fin _, .posInf => .fin 0
  | .fin _, .negInf => .fin 0
  | .posInf, .fin b => if ratLt b 0 then .negInf else .posInf
  | .negInf, .fin b => if ratLt b 0 then .posInf else .negInf
  | .posInf, _ => .nan
  | .negInf, _ => .nan

/-- Rust `f64::round()` followed by the saturating cast `as u32`
(NaN to 0, negatives to 0, large values to `u32::MAX`). -/
def F64.roundToU32 : F64 → Nat
  | .nan => 0
  | .negInf => 0
  | .posInf => 2 ^ 32 - 1
  | .fin q => Int.toNat (min (max (round q) 0) (2 ^ 32 - 1))

/-- Big-endian accumulation of a byte list into an unsigned value. -/
def beVal (bytes : List Nat) : Nat := bytes.foldl (fun a b => a * 256 + b % 256) 0

/-- Exact decoding of an IEEE-754 bit pattern with the given exponent
and significand widths. -/
def decodeIeee (bits expBits sigBits : Nat) : F64 :=
  let sign := bits / 2 ^ (expBits + sigBits) % 2
  let e := bits / 2 ^ sigBits % 2 ^ expBits
  let m := bits % 2 ^ sigBits
  if e = 2 ^ expBits - 1 then
    if m = 0 then (if sign = 1 then .negInf else .posInf) else .nan
  else
    let bias : Int := 2 ^ (expBits - 1) - 1
    let ex : Int := (if e = 0 then 1 else (e : Int)) - bias - (sigBits : Int)
    let frac : Nat := if e = 0 then m else 2 ^ sigBits + m
    let n : Int := if sign = 1 then -(frac : Int) else (frac : Int)
    .fin (if 0 ≤ ex then mkRat (n * ((2 ^ ex.toNat : ℕ) : ℤ)) 1
      else mkRat n (2 ^ (-ex).toNat))

/-- The UTF-8 replacement character U+FFFD. -/
def replChar : Char := Char.ofNat 0xFFFD

/-- Lossy UTF-8 decoding, modelling `String::from_utf8_lossy`
(maximal-subpart replacement).  The fuel only serves the recursion;
every step consumes at least one byte, so fuel equal to the input
length (supplied by `utf8Decode`) always suffices. -/
def utf8Go : Nat → List Nat → List Char
  | 0, _ => []
  | _, [] => []
  | fuel + 1, b0 :: r0 =>
    let b := b0 % 256
    if b < 0x80 then Char.ofNat b :: utf8Go fuel r0
    else if b < 0xC2 then replChar :: utf8Go fuel r0
    else if b ≤ 0xDF then
      match r0 with
      | [] => [replChar]
      | b1 :: r1 =>
        let c1 := b1 % 256
        if 0x80 ≤ c1 ∧ c1 ≤ 0xBF then
          Char.ofNat ((b - 0xC0) * 64 + (c1 - 0x80)) :: utf8Go fuel r1
        else replChar :: utf8Go fuel r0
    else if b ≤ 0xEF then
      match r0 with
      | [] => [replChar]
      | b1 :: r1 =>
        let c1 := b1 % 256
        let lo1 := if b = 0xE0 then 0xA0 else 0x80
        let hi1 := if b = 0xED then 0x9F else 0xBF
        if lo1 ≤ c1 ∧ c1 ≤ hi1 then
          match r1 with
          | [] => [replChar]
          | b2 :: r2 =>
            let c2 := b2 % 256
            if 0x80 ≤ c2 ∧ c2 ≤ 0xBF then
              Char.ofNat ((b - 0xE0) * 4096 + (c1 - 0x80) * 64 + (c2 - 0x80)) :: utf8Go fuel r2
            else replChar :: utf8Go fuel r1
        else replChar :: utf8Go fuel r0
    else if b ≤ 0xF4 then
      match r0 with
      | [] => [replChar]
      | b1 :: r1 =>
        let c1 := b1 % 256
        let lo1 := if b = 0xF0 then 0x90 else 0x80
        let hi1 := if b = 0xF4 then 0x8F else 0xBF
        if lo1 ≤ c1 ∧ c1 ≤ hi1 then
          match r1 with
          | [] => [replChar]
          | b2 :: r2 =>
            let c2 := b2 % 256
            if 0x80 ≤ c2 ∧ c2 ≤ 0xBF then
              match r2 with
              | [] => [replChar]
              | b3 :: r3 =>
                let c3 := b3 % 256
                if 0x80 ≤ c3 ∧ c3 ≤ 0xBF then
                  Char.ofNat ((b - 0xF0) * 262144 + (c1 - 0x80) * 4096 +
                    (c2 - 0x80) * 64 + (c3 - 0x80)) :: utf8Go fuel r3
                else replChar :: utf8Go fuel r2
            else replChar :: utf8Go fuel r1
        else replChar :: utf8Go fuel r0
    else replChar :: utf8Go fuel r0

/-- `String::from_utf8_lossy` on a byte buffer. -/
def utf8Decode (bytes : List Nat) : List Char := utf8Go bytes.length bytes

/-- Rust `char::is_whitespace` (the Unicode White_Space code points). -/
def isRustWs (c : Char) : Bool :=
  [0x09, 0x0A, 0x0B, 0x0C, 0x0D, 0x20, 0x85, 0xA0, 0x1680,
   0x2000, 0x2001, 0x2002, 0x2003, 0x2004, 0x2005, 0x2006, 0x2007,
   0x2008, 0x2009, 0x200A, 0x2028, 0x2029, 0x202F, 0x205F, 0x3000].contains c.toNat

/-- Trim characters satisfying `p` from both ends of a list. -/
def trimBy (p : Char → Bool) (cs : List Char) : List Char :=
  ((cs.dropWhile p).reverse.dropWhile p).reverse

/-- `str::trim` on a decoded string. -/
def trimWs (s : String) : String := String.mk (trimBy isRustWs s.data)

/-- `u8::to_ascii_lowercase` on one character. -/
def asciiLowerChar (c : Char) : Char :=
  if 'A' ≤ c ∧ c ≤ 'Z' then Char.ofNat (c.toNat + 32) else c

/-- `str::to_ascii_lowercase`. -/
def asciiLower (s : String) : String := String.mk (s.data.map asciiLowerChar)

/-- `common::read_u16_be`. -/
def read_u16_be (data : List Nat) (offset : Nat) : Option Nat :=
  if offset + 2 ≤ data.length then
    some (byteAt data offset * 256 + byteAt data (offset + 1))
  else none

/-- `common::read_u32_be`. -/
def read_u32_be (data : List Nat) (offset : Nat) : Option Nat :=
  if offset + 4 ≤ data.length then
    some (((byteAt data offset * 256 + byteAt data (offset + 1)) * 256 +
      byteAt data (offset + 2)) * 256 + byteAt data (offset + 3))
  else none

/-- `common::read_u64_be`. -/
def read_u64_be (data : List Nat) (offset : Nat) : Option Nat :=
  if offset + 8 ≤ data.length then
    some (beVal ((data.drop offset).take 8))
  else none

/-- `common::read_uint_be`: big-endian accumulation of 1 to 8 bytes. -/
def read_uint_be (bytes : List Nat) : Option Nat :=
  if bytes.isEmpty ∨ bytes.length > 8 then none
  else some (beVal bytes)

/-- `common::read_float_be`: exactly 4 or 8 bytes decode, any other
width is `none`. -/
def read_float_be (bytes : List Nat) : Option F64 :=
  if bytes.length = 4 then some (decodeIeee (beVal bytes) 8 23)
  else if bytes.length = 8 then some (decodeIeee (beVal bytes) 11 52)
  else none

/-- `common::read_utf8`: lossy decode, trim NUL padding, trim
whitespace. -/
def read_utf8 (bytes : List Nat) : String :=
  String.mk (trimBy isRustWs (trimBy (fun c => c == Char.ofNat 0) (utf8Decode bytes)))

/-- `video::QuickStreamInfo` (serde field names differ only in case). -/
structure QuickStreamInfo where
  index : Nat
  kind : String
  codec : String
  width : Option Nat
  height : Option Nat
  fps : Option F64
  sample_rate : Option Nat
  channels : Option Nat
  language : Option String
  bitrate : Option Nat
  is_default : Option Bool
  is_forced : Option Bool
deriving DecidableEq, Repr

/-- `video::QuickFontAttachment`. -/
structure QuickFontAttachment where
  index : Nat
  filename : String
deriving DecidableEq, Repr

/-- `video::QuickProbeResult`. -/
structure QuickProbeResult where
  duration : F64
  bitrate : Nat
  format : String
  streams : List QuickStreamInfo
  font_attachments : List QuickFontAttachment
deriving DecidableEq, Repr

/-- `matroska::MkvTrackTemp`, the per-track builder record. -/
structure MkvTrackTemp where
  kind : Option String
  codec : Option String
  width : Option Nat
  height : Option Nat
  fps : Option F64
  sample_rate : Option Nat
  channels : Option Nat
  language : Option String
  is_default : Option Bool
  is_forced : Option Bool
deriving DecidableEq, Repr

/-- `MkvTrackTemp::default()`. -/
def mkvTrackDefault : MkvTrackTemp :=
  ⟨none, none, none, none, none, none, none, none, none, none⟩

/-- The local variables of `matroska::parse_matroska` that the
Segment/Info/Tracks traversal mutates through `&mut` references. -/
structure MkvSt where
  format : String
  duration_ticks : Option F64
  timecode_scale : Nat
  tracks : List MkvTrackTemp
deriving DecidableEq, Repr

/-- The leading-bit length scan of `matroska::read_ebml_id`
(`mask`/`len` loop): position of the first set bit from the top of the
first byte; 5 encodes "no marker within 4 bits" and is rejected by the
caller. -/
def ebmlIdLen (first : Nat) : Nat :=
  if first / 128 % 2 = 1 then 1
  else if first / 64 % 2 = 1 then 2
  else if first / 32 % 2 = 1 then 3
  else if first / 16 % 2 = 1 then 4
  else 5

/-- The leading-bit length scan of `matroska::read_ebml_size`; 9
encodes "no marker at all" and is rejected by the caller. -/
def ebmlSizeLen (first : Nat) : Nat :=
  if first / 128 % 2 = 1 then 1
  else if first / 64 % 2 = 1 then 2
  else if first / 32 % 2 = 1 then 3
  else if first / 16 % 2 = 1 then 4
  else if first / 8 % 2 = 1 then 5
  else if first / 4 % 2 = 1 then 6
  else if first / 2 % 2 = 1 then 7
  else if first % 2 = 1 then 8
  else 9

/-- `matroska::read_ebml_id`: leading-bit length code (1-4 bytes); the
marker bits stay part of the ID value. -/
def read_ebml_id (data : List Nat) (offset : Nat) : Option (Nat × Nat) :=
  match data.get? offset with
  | none => none
  | some first0 =>
    let len := ebmlIdLen (first0 % 256)
    if len > 4 ∨ offset + len > data.length then none
    else some (beVal ((data.drop offset).take len), len)

/-- The size value of `matroska::read_ebml_size`: the first byte with
the marker bit stripped (`first & !mask`), then big-endian
accumulation of the remaining bytes. -/
def ebmlSizeVal (data : List Nat) (offset first len : Nat) : Nat :=
  ((data.drop (offset + 1)).take (len - 1)).foldl
    (fun a b => a * 256 + b % 256) (first % 2 ^ (8 - len))

/-- `matroska::read_ebml_size`: leading-bit length code (1-8 bytes);
the marker bit is stripped from the value; reports whether the value is
the all-ones "unknown size" sentinel for its width. -/
def read_ebml_size (data : List Nat) (offset : Nat) : Option (Nat × Nat × Bool) :=
  match data.get? offset with
  | none => none
  | some first0 =>
    let len := ebmlSizeLen (first0 % 256)
    if len > 8 ∨ offset + len > data.length then none
    else
      let value := ebmlSizeVal data offset (first0 % 256) len
      some (value, len, decide (value = 2 ^ (7 * len) - 1))

/-- One EBML traversal level, the loop shape shared verbatim by all six
`while offset < end` loops of `matroska.rs`: read an element ID and
size at `offset`, stop on a malformed header, an over-running payload
start, or an empty payload, otherwise dispatch to `handle` and continue
at the payload end, stopping after an unknown-size element.  The crate
is deployed through wasm-bindgen on wasm32, where `usize` is 32 bits:
`payload_start.saturating_add(size as usize)` truncates the 64-bit
size modulo `2 ^ 32` and saturates at `2 ^ 32 - 1`, both written
explicitly below.  The fuel only serves the recursion (see
`ebmlLevel_fuel_stable`). -/
def ebmlLevel {σ : Type} (data : List Nat) (ed : Nat)
    (handle : Nat → Nat → Nat → σ → Res σ) : Nat → Nat → σ → Res σ
  | 0, _, st => .ok st
  | fuel + 1, offset, st =>
    if offset < ed then
      match read_ebml_id data offset with
      | none => .ok st
      | some (id, id_len) =>
        match read_ebml_size data (offset + id_len) with
        | none => .ok st
        | some (size, size_len, unknown) =>
          let payload_start := offset + id_len + size_len
          if ed < payload_start then .ok st
          else
            let payload_end := if unknown then ed else min (min (payload_start + size % 2 ^ 32) (2 ^ 32 - 1)) ed
            if payload_end ≤ payload_start then .ok st
            else
              Res.bind (handle id payload_start payload_end st) fun st1 =>
                if unknown then .ok st1
                else ebmlLevel data ed handle fuel payload_end st1
    else .ok st

/-- `matroska::normalize_mkv_codec` helper: is `needle` a leading
segment of `hay`? -/
def leadsWith : List Char → List Char → Bool
  | [], _ => true
  | _ :: _, [] => false
  | a :: as, b :: bs => a == b && leadsWith as bs

/-- `str::contains` substring search. -/
def hasSub (needle : List Char) : List Char → Bool
  | [] => needle.isEmpty
  | c :: t => leadsWith needle (c :: t) || hasSub needle t

/-- `matroska::normalize_mkv_codec`: case-insensitive substring match
against the fixed priority list, falling back to the lowercased raw
string. -/
def normalize_mkv_codec (codec : String) : String :=
  let lower := asciiLower codec
  let l := lower.data
  if hasSub "av1".data l then "av1"
  else if hasSub "vp9".data l then "vp9"
  else if hasSub "vp8".data l then "vp8"
  else if hasSub "h264".data l || hasSub "avc".data l then "h264"
  else if hasSub "hevc".data l || hasSub "h265".data l then "hevc"
  else if hasSub "opus".data l then "opus"
  else if hasSub "aac".data l then "aac"
  else if hasSub "vorbis".data l then "vorbis"
  else lower

/-- The match arms of the loop in `matroska::parse_matroska_video`
(PixelWidth 0xB0, PixelHeight 0xBA); the loop runs over the Video
payload slice.  `u64 as u32` truncation is the `% 2 ^ 32`. -/
def mkvVideoHandle (data : List Nat) (id ps pe : Nat) (track : MkvTrackTemp) :
    Res MkvTrackTemp :=
  if id = 0xB0 then
    Res.bind (sliceR data ps pe) fun payload =>
      .ok { track with width := (read_uint_be payload).map (· % 2 ^ 32) }
  else if id = 0xBA then
    Res.bind (sliceR data ps pe) fun payload =>
      .ok { track with height := (read_uint_be payload).map (· % 2 ^ 32) }
  else .ok track

/-- `matroska::parse_matroska_video`, driving `ebmlLevel` over the
Video element payload. -/
def parse_matroska_video (data : List Nat) (track : MkvTrackTemp) : Res MkvTrackTemp :=
  ebmlLevel data data.length (mkvVideoHandle data) (data.length + 1) 0 track

/-- The match arms of the loop in `matroska::parse_matroska_audio`
(Channels 0x9F, SamplingFrequency 0xB5). -/
def mkvAudioHandle (data : List Nat) (id ps pe : Nat) (track : MkvTrackTemp) :
    Res MkvTrackTemp :=
  if id = 0x9F then
    Res.bind (sliceR data ps pe) fun payload =>
      .ok { track with channels := (read_uint_be payload).map (· % 2 ^ 32) }
  else if id = 0xB5 then
    Res.bind (sliceR data ps pe) fun payload =>
      .ok { track with sample_rate := (read_float_be payload).map F64.roundToU32 }
  else .ok track

/-- `matroska::parse_matroska_audio`. -/
def parse_matroska_audio (data : List Nat) (track : MkvTrackTemp) : Res MkvTrackTemp :=
  ebmlLevel data data.length (mkvAudioHandle data) (data.length + 1) 0 track

/-- The body of the loop in `matroska::parse_matroska_track_entry`:
the payload slice is taken once, then dispatched on the element ID. -/
def mkvEntryHandle (data : List Nat) (id ps pe : Nat) (track : MkvTrackTemp) :
    Res MkvTrackTemp :=
  Res.bind (sliceR data ps pe) fun payload =>
    if id = 0x83 then
      .ok (match read_uint_be payload with
        | some v =>
          { track with kind :=
              if v = 1 then some "video"
              else if v = 2 then some "audio"
              else if v = 17 then some "subtitle"
              else none }
        | none => track)
    else if id = 0x86 then
      .ok (let codec := read_utf8 payload
        if codec = "" then track
        else { track with codec := some (normalize_mkv_codec codec) })
    else if id = 0x0022B59C then
      .ok (let lang := read_utf8 payload
        if lang = "" then track else { track with language := some lang })
    else if id = 0x88 then
      .ok { track with is_default := (read_uint_be payload).map (fun v => v ≠ 0) }
    else if id = 0x55AA then
      .ok { track with is_forced := (read_uint_be payload).map (fun v => v ≠ 0) }
    else if id = 0x0023E383 then
      .ok (match read_uint_be payload with
        | some v =>
          if v > 0 then
            { track with fps := some (F64.div (F64.fin 1000000000) (F64.fin (v : ℚ))) }
          else track
        | none => track)
    else if id = 0xE0 then parse_matroska_video payload track
    else if id = 0xE1 then parse_matroska_audio payload track
    else .ok track

/-- `matroska::parse_matroska_track_entry`. -/
def parse_matroska_track_entry (data : List Nat) (start ed : Nat) : Res MkvTrackTemp :=
  ebmlLevel data ed (mkvEntryHandle data) (ed - start + 1) start mkvTrackDefault

/-- The match arm of the loop in `matroska::parse_matroska_tracks`
(TrackEntry 0xAE): parse the entry and keep it only when its kind was
determined. -/
def mkvTracksHandle (data : List Nat) (id ps pe : Nat) (st : MkvSt) : Res MkvSt :=
  if id = 0xAE then
    Res.bind (parse_matroska_track_entry data ps pe) fun track =>
      if track.kind.isSome then .ok { st with tracks := st.tracks ++ [track] }
      else .ok st
  else .ok st

/-- `matroska::parse_matroska_tracks`. -/
def parse_matroska_tracks (data : List Nat) (start ed : Nat) (st : MkvSt) : Res MkvSt :=
  ebmlLevel data ed (mkvTracksHandle data) (ed - start + 1) start st

/-- The match arms of the loop in `matroska::parse_matroska_info`
(TimecodeScale 0x2AD7B1 floored to 1, Duration 0x4489). -/
def mkvInfoHandle (data : List Nat) (id ps pe : Nat) (st : MkvSt) : Res MkvSt :=
  if id = 0x002AD7B1 then
    Res.bind (sliceR data ps pe) fun payload =>
      .ok (match read_uint_be payload with
        | some v => { st with timecode_scale := max v 1 }
        | none => st)
  else if id = 0x4489 then
    Res.bind (sliceR data ps pe) fun payload =>
      .ok { st with duration_ticks := read_float_be payload }
  else .ok st

/-- `matroska::parse_matroska_info`. -/
def parse_matroska_info (data : List Nat) (start ed : Nat) (st : MkvSt) : Res MkvSt :=
  ebmlLevel data ed (mkvInfoHandle data) (ed - start + 1) start st

/-- The match arms of the loop in `matroska::parse_matroska_segment`
(Info 0x1549A966, Tracks 0x1654AE6B). -/
def mkvSegmentHandle (data : List Nat) (id ps pe : Nat) (st : MkvSt) : Res MkvSt :=
  if id = 0x1549A966 then parse_matroska_info data ps pe st
  else if id = 0x1654AE6B then parse_matroska_tracks data ps pe st
  else .ok st

/-- `matroska::parse_matroska_segment`. -/
def parse_matroska_segment (data : List Nat) (start ed : Nat) (st : MkvSt) : Res MkvSt :=
  ebmlLevel data ed (mkvSegmentHandle data) (ed - start + 1) start st

/-- The match arms of the top-level loop of `matroska::parse_matroska`
(DocType 0x4282 read directly at the top level, Segment 0x18538067). -/
def mkvTopHandle (data : List Nat) (id ps pe : Nat) (st : MkvSt) : Res MkvSt :=
  if id = 0x4282 then
    Res.bind (sliceR data ps pe) fun payload =>
      .ok (let s := read_utf8 payload
        if s = "" then st else { st with format := s })
  else if id = 0x18538067 then parse_matroska_segment data ps pe st
  else .ok st

/-- The full top-level traversal of `matroska::parse_matroska`,
starting from the defaults (`format = "matroska"`, no Duration,
TimecodeScale 1 000 000, no tracks). -/
def mkvScan (data : List Nat) : Res MkvSt :=
  ebmlLevel data data.length (mkvTopHandle data) (data.length + 1) 0
    ⟨"matroska", none, 1000000, []⟩

/-- The stream-list assembly of `matroska::parse_matroska`: one
`QuickStreamInfo` per builder whose kind was determined. -/
def mkvBuildStreams (tracks : List MkvTrackTemp) : List QuickStreamInfo :=
  (tracks.enum).filterMap fun p =>
    match p.2.kind with
    | none => none
    | some kind =>
      some ⟨p.1, kind, p.2.codec.getD "unknown", p.2.width, p.2.height, p.2.fps,
        p.2.sample_rate, p.2.channels, p.2.language, none, p.2.is_default, p.2.is_forced⟩

/-- The tail of `matroska::parse_matroska`: stream assembly (`None`
when no usable track), duration = Duration ticks × TimecodeScale / 1e9
(0 when Duration is absent). -/
def mkvAssemble (st : MkvSt) : Option QuickProbeResult :=
  if (mkvBuildStreams st.tracks).isEmpty then none
  else
    some ⟨(match st.duration_ticks with
      | some ticks =>
        F64.div (F64.mul ticks (F64.fin (st.timecode_scale : ℚ))) (F64.fin 1000000000)
      | none => F64.fin 0), 0, st.format, mkvBuildStreams st.tracks, []⟩

/-- `matroska::parse_matroska`: EBML magic gate, top-level scan,
assembly. -/
def parse_matroska (data : List Nat) : Res (Option QuickProbeResult) :=
  if data.length < 4 ∨
      ¬(byteAt data 0 = 0x1A ∧ byteAt data 1 = 0x45 ∧
        byteAt data 2 = 0xDF ∧ byteAt data 3 = 0xA3) then
    .ok none
  else
    Res.bind (mkvScan data) fun st => .ok (mkvAssemble st)

/-- `mp4::Mp4TrackTemp`, the per-track builder record. -/
structure Mp4TrackTemp where
  kind : Option String
  codec : Option String
  width : Option Nat
  height : Option Nat
  fps : Option F64
  sample_rate : Option Nat
  channels : Option Nat
  language : Option String
  duration : Option F64
deriving DecidableEq, Repr

/-- `Mp4TrackTemp::default()`. -/
def mp4TrackDefault : Mp4TrackTemp :=
  ⟨none, none, none, none, none, none, none, none, none⟩

/-- The local variables of `mp4::parse_mp4` mutated during the
top-level walk. -/
structure Mp4St where
  has_ftyp : Bool
  format : String
  duration : F64
  tracks : List Mp4TrackTemp
deriving DecidableEq, Repr

/-- `mp4::next_mp4_box`: 4-byte size and type at `offset`; size 1
selects an 8-byte extended size (16-byte header), size 0 extends to the
bound; rejects a size smaller than its header (checked on the full
64-bit size), a header that does not fit, or an end past the bound or
buffer.  The crate is deployed through wasm-bindgen on wasm32, where
`usize` is 32 bits: the cast `size as usize` truncates the 64-bit size
modulo `2 ^ 32`, and `offset.checked_add` fails on 32-bit overflow;
both are written explicitly below, so a truncated extended size can
yield an end below the payload start and a next offset that does not
advance, exactly as on the target. -/
def next_mp4_box (data : List Nat) (offset limit : Nat) :
    Option (List Nat × Nat × Nat × Nat) :=
  if offset + 8 > limit ∨ offset + 8 > data.length then none
  else
    match read_u32_be data offset with
    | none => none
    | some size32 =>
      let typ := ((data.drop (offset + 4)).take 4).map (· % 256)
      let sh : Option (Nat × Nat) :=
        if size32 = 1 then
          if offset + 16 > limit ∨ offset + 16 > data.length then none
          else match read_u64_be data (offset + 8) with
            | none => none
            | some size64 => some (size64, 16)
        else if size32 = 0 then some (limit - offset, 8)
        else some (size32, 8)
      match sh with
      | none => none
      | some (size, header) =>
        if size < header then none
        else if 2 ^ 32 ≤ offset + size % 2 ^ 32 then none
        else if offset + size % 2 ^ 32 > limit ∨
            offset + size % 2 ^ 32 > data.length then none
        else some (typ, offset + header, offset + size % 2 ^ 32,
          offset + size % 2 ^ 32)

/-- One ISO-BMFF traversal level, the loop shape shared verbatim by the
six `while let Some(..) = next_mp4_box(..)` loops of `mp4.rs`: fetch
the next box, dispatch to `handle`, stop when the next offset fails to
advance.  The fuel only serves the recursion (see
`mp4Level_fuel_stable`). -/
def mp4Level {σ : Type} (data : List Nat) (limit : Nat)
    (handle : List Nat → Nat → Nat → σ → Res σ) : Nat → Nat → σ → Res σ
  | 0, _, st => .ok st
  | fuel + 1, offset, st =>
    match next_mp4_box data offset limit with
    | none => .ok st
    | some (typ, ps, pe, nx) =>
      Res.bind (handle typ ps pe st) fun st1 =>
        if nx ≤ offset then .ok st1
        else mp4Level data limit handle fuel nx st1

/-- `mp4::parse_mvhd`: version-dependent fixed offsets give timescale
and duration; duration in seconds, absent when the timescale is 0. -/
def parse_mvhd (payload : List Nat) : Option F64 :=
  if payload.length < 24 then none
  else if byteAt payload 0 = 1 then
    if payload.length < 32 then none
    else
      match read_u32_be payload 20 with
      | none => none
      | some timescale =>
        match read_u64_be payload 24 with
        | none => none
        | some dur =>
          if timescale = 0 then none
          else some (F64.fin (ratDiv (dur : ℚ) (timescale : ℚ)))
  else
    match read_u32_be payload 12 with
    | none => none
    | some timescale =>
      match read_u32_be payload 16 with
      | none => none
      | some dur =>
        if timescale = 0 then none
        else some (F64.fin (ratDiv (dur : ℚ) (timescale : ℚ)))

/-- `mp4::parse_tkhd`: version-dependent fixed offsets give 16.16
width/height; the integer part seeds the track only when unset. -/
def parse_tkhd (payload : List Nat) (track : Mp4TrackTemp) : Mp4TrackTemp :=
  if payload.length < 84 then track
  else
    let version := byteAt payload 0
    let width_off := if version = 1 then 88 else 76
    let height_off := if version = 1 then 92 else 80
    let width := (read_u32_be payload width_off).map (· / 2 ^ 16)
    let height := (read_u32_be payload height_off).map (· / 2 ^ 16)
    let track1 := if track.width.isNone then { track with width := width } else track
    if track1.height.isNone then { track1 with height := height } else track1

/-- `mp4::parse_hdlr`: bytes 8-12 of the payload name the handler;
`vide`/`soun` and the four subtitle tags set the kind, anything else
leaves it unchanged. -/
def parse_hdlr (payload : List Nat) (track : Mp4TrackTemp) : Mp4TrackTemp :=
  if payload.length < 12 then track
  else
    let handler := ((payload.drop 8).take 4).map (· % 256)
    if handler = [0x76, 0x69, 0x64, 0x65] then { track with kind := some "video" }
    else if handler = [0x73, 0x6F, 0x75, 0x6E] then { track with kind := some "audio" }
    else if handler = [0x74, 0x65, 0x78, 0x74] ∨ handler = [0x73, 0x62, 0x74, 0x6C] ∨
        handler = [0x73, 0x75, 0x62, 0x74] ∨ handler = [0x63, 0x6C, 0x63, 0x70] then
      { track with kind := some "subtitle" }
    else track

/-- `mp4::decode_mp4_language`: three 5-bit fields biased by 0x60,
accepted only when all three are lowercase ASCII letters. -/
def decode_mp4_language (raw : Nat) : Option String :=
  if raw = 0 then none
  else
    let a := raw / 1024 % 32 + 0x60
    let b := raw / 32 % 32 + 0x60
    let c := raw % 32 + 0x60
    if (0x61 ≤ a ∧ a ≤ 0x7A) ∧ (0x61 ≤ b ∧ b ≤ 0x7A) ∧ (0x61 ≤ c ∧ c ≤ 0x7A) then
      some (String.mk [Char.ofNat a, Char.ofNat b, Char.ofNat c])
    else none

/-- `mp4::parse_mdhd`: version-dependent fixed offsets give timescale,
duration and the packed language. -/
def parse_mdhd (payload : List Nat) (timescale : Option Nat) (track : Mp4TrackTemp) :
    Option Nat × Mp4TrackTemp :=
  if payload.length < 24 then (timescale, track)
  else if byteAt payload 0 = 1 then
    if payload.length < 36 then (timescale, track)
    else
      match read_u32_be payload 20 with
      | none => (timescale, track)
      | some ts =>
        match read_u64_be payload 24 with
        | none => (timescale, track)
        | some dur =>
          let lang := read_u16_be payload 32
          let track1 :=
            if ts > 0 then { track with duration := some (F64.fin (ratDiv (dur : ℚ) (ts : ℚ))) }
            else track
          (some ts, { track1 with language := lang.bind decode_mp4_language })
  else
    match read_u32_be payload 12 with
    | none => (timescale, track)
    | some ts =>
      match read_u32_be payload 16 with
      | none => (timescale, track)
      | some dur =>
        let lang := read_u16_be payload 20
        let track1 :=
          if ts > 0 then { track with duration := some (F64.fin (ratDiv (dur : ℚ) (ts : ℚ))) }
          else track
        (some ts, { track1 with language := lang.bind decode_mp4_language })

/-- `mp4::parse_stsd`: reads only the first sample-description entry;
its subtype is the codec; a video entry of at least 36 bytes
unconditionally overwrites width/height, an audio entry of at least 36
bytes sets channels and the 16.16 sample rate. -/
def parse_stsd (payload : List Nat) (track : Mp4TrackTemp) : Mp4TrackTemp :=
  if payload.length < 16 then track
  else
    match read_u32_be payload 4 with
    | none => track
    | some entry_count =>
      if entry_count = 0 then track
      else
        let offset := 8
        if offset + 8 > payload.length then track
        else
          match read_u32_be payload offset with
          | none => track
          | some size =>
            if size < 8 ∨ offset + size > payload.length then track
            else
              let typ := ((payload.drop (offset + 4)).take 4).map (· % 256)
              let codec := trimWs (asciiLower (String.mk (utf8Decode typ)))
              let track1 := { track with codec := some codec }
              if track1.kind = some "video" ∧ size ≥ 36 then
                { track1 with
                  width := read_u16_be payload (offset + 32),
                  height := read_u16_be payload (offset + 34) }
              else if track1.kind = some "audio" ∧ size ≥ 36 then
                { track1 with
                  channels := read_u16_be payload (offset + 24),
                  sample_rate := (read_u32_be payload (offset + 32)).map (· / 2 ^ 16) }
              else track1

/-- `mp4::parse_stts`: for a video track with a known positive
timescale, frame rate = timescale / first-entry sample duration. -/
def parse_stts (payload : List Nat) (timescale : Option Nat) (track : Mp4TrackTemp) :
    Mp4TrackTemp :=
  if ¬(track.kind = some "video") then track
  else
    match timescale with
    | none => track
    | some ts =>
      if ts = 0 then track
      else if payload.length < 16 then track
      else
        match read_u32_be payload 4 with
        | none => track
        | some entry_count =>
          if entry_count = 0 then track
          else
            match read_u32_be payload 12 with
            | none => track
            | some sample_duration =>
              if sample_duration > 0 then
                { track with fps := some (F64.fin (ratDiv (ts : ℚ) (sample_duration : ℚ))) }
              else track

/-- The match arms of the loop in `mp4::parse_stbl` (stsd, stts). -/
def mp4StblHandle (data : List Nat) (timescale : Option Nat)
    (typ : List Nat) (ps pe : Nat) (track : Mp4TrackTemp) : Res Mp4TrackTemp :=
  if typ = [0x73, 0x74, 0x73, 0x64] then
    Res.bind (sliceR data ps pe) fun payload => .ok (parse_stsd payload track)
  else if typ = [0x73, 0x74, 0x74, 0x73] then
    Res.bind (sliceR data ps pe) fun payload => .ok (parse_stts payload timescale track)
  else .ok track

/-- `mp4::parse_stbl`. -/
def parse_stbl (data : List Nat) (start ed : Nat) (timescale : Option Nat)
    (track : Mp4TrackTemp) : Res Mp4TrackTemp :=
  mp4Level data ed (mp4StblHandle data timescale) (ed - start + 1) start track

/-- The match arm of the loop in `mp4::parse_minf` (stbl). -/
def mp4MinfHandle (data : List Nat) (timescale : Option Nat)
    (typ : List Nat) (ps pe : Nat) (track : Mp4TrackTemp) : Res Mp4TrackTemp :=
  if typ = [0x73, 0x74, 0x62, 0x6C] then parse_stbl data ps pe timescale track
  else .ok track

/-- `mp4::parse_minf`. -/
def parse_minf (data : List Nat) (start ed : Nat) (timescale : Option Nat)
    (track : Mp4TrackTemp) : Res Mp4TrackTemp :=
  mp4Level data ed (mp4MinfHandle data timescale) (ed - start + 1) start track

/-- The match arms of the loop in `mp4::parse_mdia` (hdlr, mdhd, minf);
the state carries the local `timescale` alongside the track. -/
def mp4MdiaHandle (data : List Nat) (typ : List Nat) (ps pe : Nat)
    (st : Option Nat × Mp4TrackTemp) : Res (Option Nat × Mp4TrackTemp) :=
  if typ = [0x68, 0x64, 0x6C, 0x72] then
    Res.bind (sliceR data ps pe) fun payload => .ok (st.1, parse_hdlr payload st.2)
  else if typ = [0x6D, 0x64, 0x68, 0x64] then
    Res.bind (sliceR data ps pe) fun payload => .ok (parse_mdhd payload st.1 st.2)
  else if typ = [0x6D, 0x69, 0x6E, 0x66] then
    Res.bind (parse_minf data ps pe st.1 st.2) fun track => .ok (st.1, track)
  else .ok st

/-- `mp4::parse_mdia`. -/
def parse_mdia (data : List Nat) (start ed : Nat) (track : Mp4TrackTemp) :
    Res Mp4TrackTemp :=
  Res.bind (mp4Level data ed (mp4MdiaHandle data) (ed - start + 1) start (none, track))
    fun st => .ok st.2

/-- The match arms of the loop in `mp4::parse_trak` (tkhd, mdia). -/
def mp4TrakHandle (data : List Nat) (typ : List Nat) (ps pe : Nat)
    (track : Mp4TrackTemp) : Res Mp4TrackTemp :=
  if typ = [0x74, 0x6B, 0x68, 0x64] then
    Res.bind (sliceR data ps pe) fun payload => .ok (parse_tkhd payload track)
  else if typ = [0x6D, 0x64, 0x69, 0x61] then parse_mdia data ps pe track
  else .ok track

/-- `mp4::parse_trak`. -/
def parse_trak (data : List Nat) (start ed : Nat) : Res Mp4TrackTemp :=
  mp4Level data ed (mp4TrakHandle data) (ed - start + 1) start mp4TrackDefault

/-- The match arms of the loop in `mp4::parse_moov` (mvhd, trak); the
state is the pair of `&mut` locals (duration, tracks). -/
def mp4MoovHandle (data : List Nat) (typ : List Nat) (ps pe : Nat)
    (st : F64 × List Mp4TrackTemp) : Res (F64 × List Mp4TrackTemp) :=
  if typ = [0x6D, 0x76, 0x68, 0x64] then
    Res.bind (sliceR data ps pe) fun payload =>
      .ok (match parse_mvhd payload with
        | some dur => (dur, st.2)
        | none => st)
  else if typ = [0x74, 0x72, 0x61, 0x6B] then
    Res.bind (parse_trak data ps pe) fun track =>
      if track.kind.isSome then .ok (st.1, st.2 ++ [track])
      else .ok st
  else .ok st

/-- `mp4::parse_moov`. -/
def parse_moov (data : List Nat) (start ed : Nat) (st : F64 × List Mp4TrackTemp) :
    Res (F64 × List Mp4TrackTemp) :=
  mp4Level data ed (mp4MoovHandle data) (ed - start + 1) start st

/-- The match arms of the top-level loop of `mp4::parse_mp4` (ftyp with
the `qt  ` → `mov` special case, moov). -/
def mp4TopHandle (data : List Nat) (typ : List Nat) (ps pe : Nat) (st : Mp4St) :
    Res Mp4St :=
  if typ = [0x66, 0x74, 0x79, 0x70] then
    let st1 := { st with has_ftyp := true }
    if ps + 4 ≤ pe then
      Res.bind (sliceR data ps (ps + 4)) fun major =>
        let major_str := asciiLower (String.mk (utf8Decode major))
        if major_str = "qt  " then .ok { st1 with format := "mov" }
        else .ok { st1 with format := trimWs major_str }
    else .ok st1
  else if typ = [0x6D, 0x6F, 0x6F, 0x76] then
    Res.bind (parse_moov data ps pe (st.duration, st.tracks)) fun p =>
      .ok { st with duration := p.1, tracks := p.2 }
  else .ok st

/-- The full top-level walk of `mp4::parse_mp4`. -/
def mp4Scan (data : List Nat) : Res Mp4St :=
  mp4Level data data.length (mp4TopHandle data) (data.length + 1) 0
    ⟨false, "mp4", F64.fin 0, []⟩

/-- The stream-list assembly of `mp4::parse_mp4`. -/
def mp4BuildStreams (tracks : List Mp4TrackTemp) : List QuickStreamInfo :=
  (tracks.enum).filterMap fun p =>
    match p.2.kind with
    | none => none
    | some kind =>
      some ⟨p.1, kind, p.2.codec.getD "unknown", p.2.width, p.2.height, p.2.fps,
        p.2.sample_rate, p.2.channels, p.2.language, none, none, none⟩

/-- The fallback fold of `mp4::parse_mp4`: the maximum per-track
duration. -/
def mp4MaxTrackDuration (tracks : List Mp4TrackTemp) : F64 :=
  (tracks.filterMap (fun t => t.duration)).foldl
    (fun acc v => if F64.blt acc v then v else acc) (F64.fin 0)

/-- The tail of `mp4::parse_mp4`: ftyp gate, duration fallback,
stream assembly (`None` when no usable track). -/
def mp4Assemble (st : Mp4St) : Option QuickProbeResult :=
  if st.has_ftyp = false then none
  else if (mp4BuildStreams st.tracks).isEmpty then none
  else
    some ⟨(if F64.ble st.duration (F64.fin 0) then mp4MaxTrackDuration st.tracks
      else st.duration), 0, st.format, mp4BuildStreams st.tracks, []⟩

/-- `mp4::parse_mp4`: length gate, top-level walk, assembly. -/
def parse_mp4 (data : List Nat) : Res (Option QuickProbeResult) :=
  if data.length < 12 then .ok none
  else
    Res.bind (mp4Scan data) fun st => .ok (mp4Assemble st)

/-- The duration sanitization of `video::parse_media_header_json`:
non-finite or negative becomes 0. -/
def sanitizeDuration (p : QuickProbeResult) : QuickProbeResult :=
  if p.duration.isFinite = false ∨ F64.blt p.duration (F64.fin 0) then
    { p with duration := F64.fin 0 }
  else p

/-- The dispatcher of `video::parse_media_header_json` before
serialization: try MP4, fall back to Matroska, sanitize the duration. -/
def parse_media_header (data : List Nat) : Res (Option QuickProbeResult) :=
  Res.bind (parse_mp4 data) fun m =>
    Res.bind (match m with
      | some p => Res.ok (some p)
      | none => parse_matroska data) fun r =>
      .ok (r.map sanitizeDuration)

/-- Structural model of the serde-JSON rendering of one stream object
(field order as declared; absent options omitted; numeric text
rendering abstracted by `toString`). -/
def encStream (s : QuickStreamInfo) : String :=
  "\x7b\"index\":" ++ toString s.index ++ ",\"type\":\"" ++ s.kind ++
  "\",\"codec\":\"" ++ s.codec ++ "\"" ++
  (match s.width with | none => "" | some v => ",\"width\":" ++ toString v) ++
  (match s.height with | none => "" | some v => ",\"height\":" ++ toString v) ++
  (match s.fps with | none => "" | some v => ",\"fps\":" ++
    (match v with | .fin q => toString q | _ => "null")) ++
  (match s.sample_rate with | none => "" | some v => ",\"sampleRate\":" ++ toString v) ++
  (match s.channels with | none => "" | some v => ",\"channels\":" ++ toString v) ++
  (match s.language with | none => "" | some v => ",\"language\":\"" ++ v ++ "\"") ++
  (match s.bitrate with | none => "" | some v => ",\"bitrate\":" ++ toString v) ++
  (match s.is_default with | none => "" | some v => ",\"isDefault\":" ++ toString v) ++
  (match s.is_forced with | none => "" | some v => ",\"isForced\":" ++ toString v) ++
  "\x7d"

/-- Structural model of the serde-JSON rendering of the probe result
(`serde_json::to_string` never fails on this data). -/
def serializeProbe (p : QuickProbeResult) : String :=
  "\x7b\"duration\":" ++
  (match p.duration with | .fin q => toString q | _ => "null") ++
  ",\"bitrate\":" ++ toString p.bitrate ++
  ",\"format\":\"" ++ p.format ++ "\",\"streams\":[" ++
  String.intercalate "," (p.streams.map encStream) ++
  "],\"fontAttachments\":[]\x7d"

/-- `video::parse_media_header_json`: probe, sanitize, serialize;
no metadata yields the empty JSON object. -/
def parse_media_header_json (data : List Nat) : Res String :=
  Res.bind (parse_media_header data) fun r =>
    .ok (match r with
      | none => "\x7b\x7d"
      | some p => serializeProbe p)

/-- Big-endian 4-byte encoding, for building concrete test buffers. -/
def u32b (n : Nat) : List Nat :=
  [n / 2 ^ 24 % 256, n / 2 ^ 16 % 256, n / 2 ^ 8 % 256, n % 256]

/-- An ISO-BMFF box with the given 4-byte tag and payload. -/
def mkBox (tag payload : List Nat) : List Nat :=
  u32b (payload.length + 8) ++ tag ++ payload

/-- A minimal Matroska buffer: EBML header element (1 skipped byte of
payload), then Segment → Tracks → TrackEntry → TrackType 1 (video). -/
def mkvMinBuf : List Nat :=
  [0x1A, 0x45, 0xDF, 0xA3, 0x81, 0x00,
   0x18, 0x53, 0x80, 0x67, 0x8A,
   0x16, 0x54, 0xAE, 0x6B, 0x85,
   0xAE, 0x83,
   0x83, 0x81, 0x01]

/-- A Matroska buffer with Segment → Info (TimecodeScale 1 000 000,
Duration 5000.0 as an 8-byte float) and a video track. -/
def mkvDurBuf : List Nat :=
  [0x1A, 0x45, 0xDF, 0xA3, 0x81, 0x00,
   0x18, 0x53, 0x80, 0x67, 0xA1,
   0x15, 0x49, 0xA9, 0x66, 0x92,
   0x2A, 0xD7, 0xB1, 0x83, 0x0F, 0x42, 0x40,
   0x44, 0x89, 0x88, 0x40, 0xB3, 0x88, 0x00, 0x00, 0x00, 0x00, 0x00,
   0x16, 0x54, 0xAE, 0x6B, 0x85,
   0xAE, 0x83,
   0x83, 0x81, 0x01]

/-- A minimal valid MP4: `ftyp` (major brand `isom`) and `moov` with
one video `trak`; `tkhd` declares 100 × 50, `hdlr` is `vide`, `mdhd`
has timescale 600 and duration 6000 (10 s), and the 36-byte `stsd`
visual entry (`avc1`) declares 640 × 360. -/
def mp4Buf : List Nat :=
  mkBox [0x66, 0x74, 0x79, 0x70] ([0x69, 0x73, 0x6F, 0x6D] ++ [0, 0, 0, 0]) ++
  mkBox [0x6D, 0x6F, 0x6F, 0x76] (
    mkBox [0x74, 0x72, 0x61, 0x6B] (
      mkBox [0x74, 0x6B, 0x68, 0x64]
        (List.replicate 76 0 ++ [0, 100, 0, 0] ++ [0, 50, 0, 0]) ++
      mkBox [0x6D, 0x64, 0x69, 0x61] (
        mkBox [0x68, 0x64, 0x6C, 0x72]
          ([0, 0, 0, 0, 0, 0, 0, 0] ++ [0x76, 0x69, 0x64, 0x65]) ++
        mkBox [0x6D, 0x64, 0x68, 0x64]
          ([0, 0, 0, 0] ++ [0, 0, 0, 0] ++ [0, 0, 0, 0] ++
           [0, 0, 2, 88] ++ [0, 0, 23, 112] ++ [0, 0] ++ [0, 0]) ++
        mkBox [0x6D, 0x69, 0x6E, 0x66] (
          mkBox [0x73, 0x74, 0x62, 0x6C] (
            mkBox [0x73, 0x74, 0x73, 0x64]
              ([0, 0, 0, 0] ++ [0, 0, 0, 1] ++
               u32b 36 ++ [0x61, 0x76, 0x63, 0x31] ++
               List.replicate 24 0 ++ [2, 128] ++ [1, 104]))))))

/-- A Matroska buffer whose EBML header element *contains* a DocType
sub-element with text `webm`, followed by a Segment with one video
track. -/
def mkvNestedDocBuf : List Nat :=
  [0x1A, 0x45, 0xDF, 0xA3, 0x87,
   0x42, 0x82, 0x84, 0x77, 0x65, 0x62, 0x6D,
   0x18, 0x53, 0x80, 0x67, 0x8A,
   0x16, 0x54, 0xAE, 0x6B, 0x85,
   0xAE, 0x83,
   0x83, 0x81, 0x01]

/-- A Matroska buffer with a DocType element (`webm`) appearing as a
top-level sibling after the EBML header element. -/
def mkvTopDocBuf : List Nat :=
  [0x1A, 0x45, 0xDF, 0xA3, 0x81, 0x00,
   0x42, 0x82, 0x84, 0x77, 0x65, 0x62, 0x6D,
   0x18, 0x53, 0x80, 0x67, 0x8A,
   0x16, 0x54, 0xAE, 0x6B, 0x85,
   0xAE, 0x83,
   0x83, 0x81, 0x01]

/-- A Matroska buffer whose TrackEntry is TrackType 1, then a
zero-size element (id 0xEC), then CodecID `A_OPUS`: the zero-size
element stops the entry scan, so the codec is never read. -/
def mkvZeroSizeBuf : List Nat :=
  [0x1A, 0x45, 0xDF, 0xA3, 0x81, 0x00,
   0x18, 0x53, 0x80, 0x67, 0x94,
   0x16, 0x54, 0xAE, 0x6B, 0x8F,
   0xAE, 0x8D,
   0x83, 0x81, 0x01,
   0xEC, 0x80,
   0x86, 0x86, 0x41, 0x5F, 0x4F, 0x50, 0x55, 0x53]

/-- The kind field of a track builder is never set to anything but the
three recognized stream kinds. -/
def kindRec (k : Option String) : Prop :=
  k = none ∨ k = some "video" ∨ k = some "audio" ∨ k = some "subtitle"

/-- A track list holds only tracks of the three recognized kinds. -/
def tracksRecMkv (l : List MkvTrackTemp) : Prop :=
  ∀ t ∈ l, t.kind = some "video" ∨ t.kind = some "audio" ∨ t.kind = some "subtitle"

/-- A track list holds only tracks of the three recognized kinds. -/
def tracksRecMp4 (l : List Mp4TrackTemp) : Prop :=
  ∀ t ∈ l, t.kind = some "video" ∨ t.kind = some "audio" ∨ t.kind = some "subtitle"

/-- The recognized-video minimal stream record shared by the concrete
buffers above. -/
def mkvMinStream : QuickStreamInfo :=
  ⟨0, "video", "unknown", none, none, none, none, none, none, none, none, none⟩

/-- The probe result of `mp4Buf`. -/
def mp4BufResult : QuickProbeResult :=
  ⟨F64.fin 10, 0, "isom",
    [⟨0, "video", "avc1", some 640, some 360, none, none, none, none, none, none, none⟩], []⟩

/-- A well-formed MP4 with `ftyp` and an empty `moov`: a format match
with zero usable tracks. -/
def mp4NoTrackBuf : List Nat :=
  mkBox [0x66, 0x74, 0x79, 0x70] ([0x69, 0x73, 0x6F, 0x6D] ++ [0, 0, 0, 0]) ++
  mkBox [0x6D, 0x6F, 0x6F, 0x76] []

/-- A Matroska buffer that is just an EBML header element: a format
match with zero usable tracks. -/
def mkvNoTrackBuf : List Nat := [0x1A, 0x45, 0xDF, 0xA3, 0x81, 0x00]

/-- A 24-byte `moov` box holding an `mvhd` child whose extended 64-bit
size is `2 ^ 32`: on the 32-bit target `size as usize` truncates to 0,
so `next_mp4_box` returns payload bounds 24..8 and the `mvhd` slice
panics. -/
def mp4MoovTruncBuf : List Nat :=
  [0x00, 0x00, 0x00, 0x18, 0x6D, 0x6F, 0x6F, 0x76,
   0x00, 0x00, 0x00, 0x01, 0x6D, 0x76, 0x68, 0x64,
   0x00, 0x00, 0x00, 0x01, 0x00, 0x00, 0x00, 0x00]

theorem ratMul_eq (a b : ℚ) : ratMul a b = a * b := by
  unfold ratMul
  conv_rhs => rw [← Rat.num_divInt_den a, ← Rat.num_divInt_den b]
  rw [Rat.divInt_mul_divInt']

theorem ratDiv_eq (a b : ℚ) : ratDiv a b = a / b := (Rat.div_def' a b).symm

theorem ratLt_iff (a b : ℚ) : ratLt a b = true ↔ a < b := by
  unfold ratLt
  rw [decide_eq_true_iff]
  exact (Rat.lt_def).symm

theorem ratLe_iff (a b : ℚ) : ratLe a b = true ↔ a ≤ b := by
  unfold ratLe
  rw [decide_eq_true_iff]
  exact (Rat.le_def).symm

theorem Res.bind_ok {α β : Type} (a : α) (f : α → Res β) :
    Res.bind (.ok a) f = f a := rfl

/-- A successful bind means the first computation succeeded: a crash
would have propagated. -/
theorem Res.bind_ok_inv {α β : Type} {x : Res α} {f : α → Res β} {b : β}
    (h : Res.bind x f = .ok b) : ∃ a, x = .ok a ∧ f a = .ok b := by
  cases x with
  | crash => exact Res.noConfusion h
  | ok a => exact ⟨a, rfl, h⟩

/-- A big-endian 32-bit read is below `2 ^ 32`. -/
theorem read_u32_be_lt {data : List Nat} {offset s : Nat}
    (h : read_u32_be data offset = some s) : s < 2 ^ 32 := by
  unfold read_u32_be at h
  split at h
  · injection h with h1
    have b0 : byteAt data offset < 256 := Nat.mod_lt _ (by omega)
    have b1 : byteAt data (offset + 1) < 256 := Nat.mod_lt _ (by omega)
    have b2 : byteAt data (offset + 2) < 256 := Nat.mod_lt _ (by omega)
    have b3 : byteAt data (offset + 3) < 256 := Nat.mod_lt _ (by omega)
    omega
  · exact Option.noConfusion h

theorem mp4Level_zero {σ : Type} (data : List Nat) (limit : Nat)
    (handle : List Nat → Nat → Nat → σ → Res σ) (offset : Nat) (st : σ) :
    mp4Level data limit handle 0 offset st = .ok st := rfl

theorem mp4Level_succ {σ : Type} (data : List Nat) (limit : Nat)
    (handle : List Nat → Nat → Nat → σ → Res σ) (fuel offset : Nat) (st : σ) :
    mp4Level data limit handle (fuel + 1) offset st =
      match next_mp4_box data offset limit with
      | none => .ok st
      | some (typ, ps, pe, nx) =>
        Res.bind (handle typ ps pe st) fun st1 =>
          if nx ≤ offset then .ok st1
          else mp4Level data limit handle fuel nx st1 := rfl

theorem ebmlLevel_zero {σ : Type} (data : List Nat) (ed : Nat)
    (handle : Nat → Nat → Nat → σ → Res σ) (offset : Nat) (st : σ) :
    ebmlLevel data ed handle 0 offset st = .ok st := rfl

theorem ebmlLevel_succ {σ : Type} (data : List Nat) (ed : Nat)
    (handle : Nat → Nat → Nat → σ → Res σ) (fuel offset : Nat) (st : σ) :
    ebmlLevel data ed handle (fuel + 1) offset st =
      (if offset < ed then
        match read_ebml_id data offset with
        | none => .ok st
        | some (id, id_len) =>
          match read_ebml_size data (offset + id_len) with
          | none => .ok st
          | some (size, size_len, unknown) =>
            let payload_start := offset + id_len + size_len
            if ed < payload_start then .ok st
            else
              let payload_end := if unknown then ed else min (min (payload_start + size % 2 ^ 32) (2 ^ 32 - 1)) ed
              if payload_end ≤ payload_start then .ok st
              else
                Res.bind (handle id payload_start payload_end st) fun st1 =>
                  if unknown then .ok st1
                  else ebmlLevel data ed handle fuel payload_end st1
      else .ok st) := rfl

/-- Postconditions of a successful `next_mp4_box`: the payload starts
past the header, the (possibly truncation-shrunk) end stays within both
the bound and the buffer, the next offset equals the end and never
precedes the input offset, and the 8-byte header fits the bound.
Because `size as usize` truncates on the 32-bit target, the end may lie
below the payload start and the next offset may fail to advance. -/
theorem next_mp4_box_bounds {data : List Nat} {offset limit : Nat}
    {typ : List Nat} {ps pe nx : Nat}
    (h : next_mp4_box data offset limit = some (typ, ps, pe, nx)) :
    offset < ps ∧ ps ≤ data.length ∧ pe ≤ limit ∧ pe ≤ data.length ∧
      nx = pe ∧ offset ≤ nx ∧ offset + 8 ≤ limit := by
  unfold next_mp4_box at h
  split at h
  · simp at h
  · rename_i hfit
    push_neg at hfit
    rcases hr : read_u32_be data offset with _ | size32
    · rw [hr] at h
      simp at h
    · rw [hr] at h
      simp only [] at h
      split at h
      · simp at h
      · rename_i sh size header hsh
        split at h
        · simp at h
        · rename_i hsz
          split at h
          · simp at h
          · rename_i hovf
            split at h
            · simp at h
            · rename_i hend
              push_neg at hend
              injection h with h1
              injection h1 with ht h2
              injection h2 with hps h3
              injection h3 with hpe hnx
              subst ht hps hpe hnx
              have hhdr : 8 ≤ header ∧
                  (header = 8 ∨ (header = 16 ∧ offset + 16 ≤ data.length)) := by
                split at hsh
                · split at hsh
                  · simp at hsh
                  · rename_i hfit16
                    push_neg at hfit16
                    rcases hu : read_u64_be data (offset + 8) with _ | s64
                    · rw [hu] at hsh; simp at hsh
                    · rw [hu] at hsh
                      simp only [] at hsh
                      injection hsh with hsh1
                      injection hsh1 with hs hh
                      omega
                · split at hsh <;>
                    (injection hsh with hsh1; injection hsh1 with hs hh; omega)
              omega

/-- Postconditions of a successful `read_ebml_id`: the encoded length
is 1-4 bytes and fits in the buffer. -/
theorem ebmlIdLen_pos (first : Nat) : 1 ≤ ebmlIdLen first := by
  unfold ebmlIdLen
  split <;> try omega
  split <;> try omega
  split <;> try omega
  split <;> omega

theorem ebmlSizeLen_pos (first : Nat) : 1 ≤ ebmlSizeLen first := by
  unfold ebmlSizeLen
  repeat (first | omega | split)

theorem read_ebml_id_bounds {data : List Nat} {offset : Nat} {id id_len : Nat}
    (h : read_ebml_id data offset = some (id, id_len)) :
    1 ≤ id_len ∧ id_len ≤ 4 ∧ offset + id_len ≤ data.length := by
  unfold read_ebml_id at h
  rcases hg : data.get? offset with _ | first0
  · rw [hg] at h; simp at h
  · rw [hg] at h
    simp only [] at h
    split at h
    · simp at h
    · rename_i hok
      injection h with h1
      injection h1 with hid hlen
      subst hlen
      have := ebmlIdLen_pos (first0 % 256)
      omega

/-- Postconditions of a successful `read_ebml_size`: the encoded
length is 1-8 bytes and fits in the buffer, and the unknown flag is set
exactly when the value is the all-ones sentinel for the width. -/
theorem read_ebml_size_bounds {data : List Nat} {offset : Nat}
    {v size_len : Nat} {unknown : Bool}
    (h : read_ebml_size data offset = some (v, size_len, unknown)) :
    1 ≤ size_len ∧ size_len ≤ 8 ∧ offset + size_len ≤ data.length ∧
      (unknown = true ↔ v = 2 ^ (7 * size_len) - 1) := by
  unfold read_ebml_size at h
  rcases hg : data.get? offset with _ | first0
  · rw [hg] at h; simp at h
  · rw [hg] at h
    simp only [] at h
    split at h
    · simp at h
    · rename_i hok
      injection h with h1
      injection h1 with hv h2
      injection h2 with hlen hunk
      subst hv hlen hunk
      have := ebmlSizeLen_pos (first0 % 256)
      exact ⟨by omega, by omega, by omega, by simp⟩

/-- The result of `mp4Level` does not depend on the fuel once the fuel
covers the distance to the bound: the strict progress of
`next_mp4_box` bounds the number of iterations by `limit - offset`. -/
theorem mp4Level_fuel_stable {σ : Type} (data : List Nat) (limit : Nat)
    (handle : List Nat → Nat → Nat → σ → Res σ) :
    ∀ fuel gfuel offset st, limit < offset + fuel → limit < offset + gfuel →
      mp4Level data limit handle fuel offset st =
        mp4Level data limit handle gfuel offset st := by
  intro fuel
  induction fuel with
  | zero =>
    intro gfuel offset st hf hg
    cases gfuel with
    | zero => rfl
    | succ g =>
      rw [mp4Level_zero, mp4Level_succ]
      rcases hb : next_mp4_box data offset limit with _ | x
      · rfl
      · have := next_mp4_box_bounds hb
        omega
  | succ f ih =>
    intro gfuel offset st hf hg
    cases gfuel with
    | zero =>
      rw [mp4Level_zero, mp4Level_succ]
      rcases hb : next_mp4_box data offset limit with _ | x
      · rfl
      · have := next_mp4_box_bounds hb
        omega
    | succ g =>
      rw [mp4Level_succ data limit handle f, mp4Level_succ data limit handle g]
      rcases hb : next_mp4_box data offset limit with _ | ⟨typ, ps, pe, nx⟩
      · rfl
      · have hbnd := next_mp4_box_bounds hb
        simp only []
        rcases hh : handle typ ps pe st with _ | st1
        · rfl
        · simp only [Res.bind_ok]
          split
          · rfl
          · exact ih g nx st1 (by omega) (by omega)

/-- The result of `ebmlLevel` does not depend on the fuel once the
fuel covers the distance to the bound: every continuing iteration
strictly advances the offset. -/
theorem ebmlLevel_fuel_stable {σ : Type} (data : List Nat) (ed : Nat)
    (handle : Nat → Nat → Nat → σ → Res σ) :
    ∀ fuel gfuel offset st, ed ≤ offset + fuel → ed ≤ offset + gfuel →
      ebmlLevel data ed handle fuel offset st =
        ebmlLevel data ed handle gfuel offset st := by
  intro fuel
  induction fuel with
  | zero =>
    intro gfuel offset st hf hg
    cases gfuel with
    | zero => rfl
    | succ g =>
      rw [ebmlLevel_zero, ebmlLevel_succ]
      rw [if_neg (by omega)]
  | succ f ih =>
    intro gfuel offset st hf hg
    cases gfuel with
    | zero =>
      rw [ebmlLevel_zero, ebmlLevel_succ]
      rw [if_neg (by omega)]
    | succ g =>
      rw [ebmlLevel_succ data ed handle f, ebmlLevel_succ data ed handle g]
      by_cases hlt : offset < ed
      · rw [if_pos hlt, if_pos hlt]
        rcases hid : read_ebml_id data offset with _ | ⟨id, id_len⟩
        · rfl
        · simp only []
          rcases hsz : read_ebml_size data (offset + id_len) with _ | ⟨size, size_len, unknown⟩
          · rfl
          · have hidb := read_ebml_id_bounds hid
            have hszb := read_ebml_size_bounds hsz
            simp only []
            by_cases hps : ed < offset + id_len + size_len
            · rw [if_pos hps, if_pos hps]
            · rw [if_neg hps, if_neg hps]
              by_cases hpe :
                  (if unknown = true then ed
                   else min (min (offset + id_len + size_len + size % 2 ^ 32) (2 ^ 32 - 1)) ed) ≤
                    offset + id_len + size_len
              · rw [if_pos hpe, if_pos hpe]
              · rw [if_neg hpe, if_neg hpe]
                rcases hh : handle id (offset + id_len + size_len)
                    (if unknown = true then ed
                     else min (min (offset + id_len + size_len + size % 2 ^ 32) (2 ^ 32 - 1)) ed) st with _ | st1
                · rfl
                · simp only [Res.bind_ok]
                  cases unknown with
                  | true => rfl
                  | false =>
                    simp only [Bool.false_eq_true, if_false]
                    have hmin : min (min (offset + id_len + size_len + size % 2 ^ 32) (2 ^ 32 - 1)) ed ≤ ed :=
                      Nat.min_le_right _ _
                    simp only [Bool.false_eq_true, if_false] at hpe
                    exact ih g _ st1 (by omega) (by omega)
      · rw [if_neg hlt, if_neg hlt]

/-- `ebmlLevel` never crashes when its handler never crashes on the
non-empty in-bound payloads the level delivers. -/
theorem ebmlLevel_ok {σ : Type} {data : List Nat} {ed : Nat}
    {handle : Nat → Nat → Nat → σ → Res σ}
    (H : ∀ id ps pe st, ps < pe → pe ≤ ed →
      ∃ st1, handle id ps pe st = .ok st1) :
    ∀ fuel offset st, ∃ st1, ebmlLevel data ed handle fuel offset st = .ok st1 := by
  intro fuel
  induction fuel with
  | zero => intro offset st; exact ⟨st, rfl⟩
  | succ f ih =>
    intro offset st
    rw [ebmlLevel_succ]
    by_cases hlt : offset < ed
    · rw [if_pos hlt]
      rcases hid : read_ebml_id data offset with _ | ⟨id, id_len⟩
      · exact ⟨st, rfl⟩
      · simp only []
        rcases hsz : read_ebml_size data (offset + id_len) with _ | ⟨size, size_len, unknown⟩
        · exact ⟨st, rfl⟩
        · simp only []
          by_cases hps : ed < offset + id_len + size_len
          · rw [if_pos hps]
            exact ⟨st, rfl⟩
          · rw [if_neg hps]
            by_cases hpe :
                (if unknown = true then ed
                 else min (min (offset + id_len + size_len + size % 2 ^ 32) (2 ^ 32 - 1)) ed) ≤
                  offset + id_len + size_len
            · rw [if_pos hpe]
              exact ⟨st, rfl⟩
            · rw [if_neg hpe]
              obtain ⟨st1, hst1⟩ := H id (offset + id_len + size_len)
                (if unknown = true then ed
                 else min (min (offset + id_len + size_len + size % 2 ^ 32) (2 ^ 32 - 1)) ed) st
                (by omega)
                (by
                  by_cases hu : unknown = true
                  · simp [hu]
                  · simp only [hu, if_false]
                    exact Nat.min_le_right _ _)
              rw [hst1, Res.bind_ok]
              cases unknown with
              | true => exact ⟨st1, rfl⟩
              | false => exact ih _ st1
    · rw [if_neg hlt]
      exact ⟨st, rfl⟩

/-- A state property preserved by every handler call is preserved by
`mp4Level`. -/
theorem mp4Level_preserve {σ : Type} {data : List Nat} {limit : Nat}
    {handle : List Nat → Nat → Nat → σ → Res σ} (P : σ → Prop)
    (H : ∀ typ ps pe st st1, P st → handle typ ps pe st = .ok st1 → P st1) :
    ∀ fuel offset st st1, P st →
      mp4Level data limit handle fuel offset st = .ok st1 → P st1 := by
  intro fuel
  induction fuel with
  | zero =>
    intro offset st st1 hP h
    rw [mp4Level_zero] at h
    injection h with h1
    exact h1 ▸ hP
  | succ f ih =>
    intro offset st st1 hP h
    rw [mp4Level_succ] at h
    rcases hb : next_mp4_box data offset limit with _ | ⟨typ, ps, pe, nx⟩ <;> rw [hb] at h
    · injection h with h1
      exact h1 ▸ hP
    · simp only [] at h
      rcases hh : handle typ ps pe st with _ | stm <;> rw [hh] at h
      · simp [Res.bind] at h
      · rw [Res.bind_ok] at h
        split at h
        · injection h with h1
          exact h1 ▸ H typ ps pe st stm hP hh
        · exact ih nx stm st1 (H typ ps pe st stm hP hh) h

/-- A state property preserved by every handler call is preserved by
`ebmlLevel`. -/
theorem ebmlLevel_preserve {σ : Type} {data : List Nat} {ed : Nat}
    {handle : Nat → Nat → Nat → σ → Res σ} (P : σ → Prop)
    (H : ∀ id ps pe st st1, P st → handle id ps pe st = .ok st1 → P st1) :
    ∀ fuel offset st st1, P st →
      ebmlLevel data ed handle fuel offset st = .ok st1 → P st1 := by
  intro fuel
  induction fuel with
  | zero =>
    intro offset st st1 hP h
    rw [ebmlLevel_zero] at h
    injection h with h1
    exact h1 ▸ hP
  | succ f ih =>
    intro offset st st1 hP h
    rw [ebmlLevel_succ] at h
    split at h
    · rcases hid : read_ebml_id data offset with _ | ⟨id, id_len⟩ <;> rw [hid] at h
      · injection h with h1
        exact h1 ▸ hP
      · simp only [] at h
        rcases hsz : read_ebml_size data (offset + id_len) with
            _ | ⟨size, size_len, unknown⟩ <;> rw [hsz] at h
        · injection h with h1
          exact h1 ▸ hP
        · simp only [] at h
          split at h
          · injection h with h1
            exact h1 ▸ hP
          · cases unknown with
            | true =>
              simp only [if_true] at h
              split at h
              · injection h with h1
                exact h1 ▸ hP
              · rcases hh : handle id (offset + id_len + size_len) ed st with
                    _ | stm <;> rw [hh] at h
                · simp [Res.bind] at h
                · rw [Res.bind_ok] at h
                  injection h with h1
                  exact h1 ▸ H _ _ _ st stm hP hh
            | false =>
              simp only [Bool.false_eq_true, if_false] at h
              split at h
              · injection h with h1
                exact h1 ▸ hP
              · rcases hh : handle id (offset + id_len + size_len)
                    (min (min (offset + id_len + size_len + size % 2 ^ 32) (2 ^ 32 - 1)) ed) st with
                    _ | stm <;> rw [hh] at h
                · simp [Res.bind] at h
                · rw [Res.bind_ok] at h
                  exact ih _ stm st1 (H _ _ _ st stm hP hh) h
    · injection h with h1
      exact h1 ▸ hP

theorem sliceR_ok (data : List Nat) (a b : Nat) (h1 : a ≤ b) (h2 : b ≤ data.length) :
    sliceR data a b = .ok ((data.take b).drop a) := by
  unfold sliceR
  rw [if_pos ⟨h1, h2⟩]

theorem mkvVideoHandle_ok (payload : List Nat) :
    ∀ id ps pe tr, ps < pe → pe ≤ payload.length →
      ∃ tr1, mkvVideoHandle payload id ps pe tr = .ok tr1 := by
  intro id ps pe tr h1 h2
  have hs := sliceR_ok payload ps pe (Nat.le_of_lt h1) h2
  unfold mkvVideoHandle
  split
  · rw [hs, Res.bind_ok]
    exact ⟨_, rfl⟩
  · split
    · rw [hs, Res.bind_ok]
      exact ⟨_, rfl⟩
    · exact ⟨tr, rfl⟩

/-- `parse_matroska_video` never crashes: its slices are clipped to
the payload it walks. -/
theorem parse_matroska_video_ok (payload : List Nat) (tr : MkvTrackTemp) :
    ∃ tr1, parse_matroska_video payload tr = .ok tr1 := by
  unfold parse_matroska_video
  exact ebmlLevel_ok (fun id ps pe st h1 h2 => mkvVideoHandle_ok payload id ps pe st h1 h2) _ _ _

theorem mkvAudioHandle_ok (payload : List Nat) :
    ∀ id ps pe tr, ps < pe → pe ≤ payload.length →
      ∃ tr1, mkvAudioHandle payload id ps pe tr = .ok tr1 := by
  intro id ps pe tr h1 h2
  have hs := sliceR_ok payload ps pe (Nat.le_of_lt h1) h2
  unfold mkvAudioHandle
  split
  · rw [hs, Res.bind_ok]
    exact ⟨_, rfl⟩
  · split
    · rw [hs, Res.bind_ok]
      exact ⟨_, rfl⟩
    · exact ⟨tr, rfl⟩

theorem parse_matroska_audio_ok (payload : List Nat) (tr : MkvTrackTemp) :
    ∃ tr1, parse_matroska_audio payload tr = .ok tr1 := by
  unfold parse_matroska_audio
  exact ebmlLevel_ok (fun id ps pe st h1 h2 => mkvAudioHandle_ok payload id ps pe st h1 h2) _ _ _

theorem mkvEntryHandle_ok (data : List Nat) (ed : Nat) (hed : ed ≤ data.length) :
    ∀ id ps pe tr, ps < pe → pe ≤ ed →
      ∃ tr1, mkvEntryHandle data id ps pe tr = .ok tr1 := by
  intro id ps pe tr h1 h2
  have hs := sliceR_ok data ps pe (Nat.le_of_lt h1) (le_trans h2 hed)
  unfold mkvEntryHandle
  rw [hs, Res.bind_ok]
  split
  · exact ⟨_, rfl⟩
  · split
    · exact ⟨_, rfl⟩
    · split
      · exact ⟨_, rfl⟩
      · split
        · exact ⟨_, rfl⟩
        · split
          · exact ⟨_, rfl⟩
          · split
            · exact ⟨_, rfl⟩
            · split
              · exact parse_matroska_video_ok _ tr
              · split
                · exact parse_matroska_audio_ok _ tr
                · exact ⟨tr, rfl⟩

/-- `parse_matroska_track_entry` never crashes when its bound lies
within the buffer. -/
theorem parse_matroska_track_entry_ok (data : List Nat) (start ed : Nat)
    (hed : ed ≤ data.length) :
    ∃ tr, parse_matroska_track_entry data start ed = .ok tr := by
  unfold parse_matroska_track_entry
  exact ebmlLevel_ok (mkvEntryHandle_ok data ed hed) _ _ _

theorem mkvTracksHandle_ok (data : List Nat) (ed : Nat) (hed : ed ≤ data.length) :
    ∀ id ps pe st, ps < pe → pe ≤ ed →
      ∃ st1, mkvTracksHandle data id ps pe st = .ok st1 := by
  intro id ps pe st h1 h2
  unfold mkvTracksHandle
  split
  · obtain ⟨tr, htr⟩ := parse_matroska_track_entry_ok data ps pe (le_trans h2 hed)
    rw [htr, Res.bind_ok]
    split
    · exact ⟨_, rfl⟩
    · exact ⟨st, rfl⟩
  · exact ⟨st, rfl⟩

theorem parse_matroska_tracks_ok (data : List Nat) (start ed : Nat)
    (hed : ed ≤ data.length) (st : MkvSt) :
    ∃ st1, parse_matroska_tracks data start ed st = .ok st1 := by
  unfold parse_matroska_tracks
  exact ebmlLevel_ok (mkvTracksHandle_ok data ed hed) _ _ _

theorem mkvInfoHandle_ok (data : List Nat) (ed : Nat) (hed : ed ≤ data.length) :
    ∀ id ps pe st, ps < pe → pe ≤ ed →
      ∃ st1, mkvInfoHandle data id ps pe st = .ok st1 := by
  intro id ps pe st h1 h2
  have hs := sliceR_ok data ps pe (Nat.le_of_lt h1) (le_trans h2 hed)
  unfold mkvInfoHandle
  split
  · rw [hs, Res.bind_ok]
    exact ⟨_, rfl⟩
  · split
    · rw [hs, Res.bind_ok]
      exact ⟨_, rfl⟩
    · exact ⟨st, rfl⟩

theorem parse_matroska_info_ok (data : List Nat) (start ed : Nat)
    (hed : ed ≤ data.length) (st : MkvSt) :
    ∃ st1, parse_matroska_info data start ed st = .ok st1 := by
  unfold parse_matroska_info
  exact ebmlLevel_ok (mkvInfoHandle_ok data ed hed) _ _ _

theorem mkvSegmentHandle_ok (data : List Nat) (ed : Nat) (hed : ed ≤ data.length) :
    ∀ id ps pe st, ps < pe → pe ≤ ed →
      ∃ st1, mkvSegmentHandle data id ps pe st = .ok st1 := by
  intro id ps pe st h1 h2
  unfold mkvSegmentHandle
  split
  · exact parse_matroska_info_ok data ps pe (le_trans h2 hed) st
  · split
    · exact parse_matroska_tracks_ok data ps pe (le_trans h2 hed) st
    · exact ⟨st, rfl⟩

theorem parse_matroska_segment_ok (data : List Nat) (start ed : Nat)
    (hed : ed ≤ data.length) (st : MkvSt) :
    ∃ st1, parse_matroska_segment data start ed st = .ok st1 := by
  unfold parse_matroska_segment
  exact ebmlLevel_ok (mkvSegmentHandle_ok data ed hed) _ _ _

theorem mkvTopHandle_ok (data : List Nat) :
    ∀ id ps pe st, ps < pe → pe ≤ data.length →
      ∃ st1, mkvTopHandle data id ps pe st = .ok st1 := by
  intro id ps pe st h1 h2
  unfold mkvTopHandle
  split
  · rw [sliceR_ok data ps pe (Nat.le_of_lt h1) h2, Res.bind_ok]
    exact ⟨_, rfl⟩
  · split
    · exact parse_matroska_segment_ok data ps pe h2 st
    · exact ⟨st, rfl⟩

/-- The full Matroska top-level scan never crashes. -/
theorem mkvScan_ok (data : List Nat) : ∃ st, mkvScan data = .ok st := by
  unfold mkvScan
  exact ebmlLevel_ok (mkvTopHandle_ok data) _ _ _

/-- `parse_matroska` never crashes on any input. -/
theorem parse_matroska_ok (data : List Nat) :
    ∃ r, parse_matroska data = .ok r := by
  unfold parse_matroska
  split
  · exact ⟨none, rfl⟩
  · obtain ⟨st, hst⟩ := mkvScan_ok data
    rw [hst, Res.bind_ok]
    exact ⟨_, rfl⟩

theorem mkvInfoHandle_scale (data : List Nat) :
    ∀ id ps pe st st1, 1 ≤ st.timecode_scale →
      mkvInfoHandle data id ps pe st = .ok st1 → 1 ≤ st1.timecode_scale := by
  intro id ps pe st st1 hP h
  unfold mkvInfoHandle at h
  split at h
  · rcases hs : sliceR data ps pe with _ | payload <;> rw [hs] at h
    · simp [Res.bind] at h
    · rw [Res.bind_ok] at h
      injection h with h1
      subst h1
      rcases read_uint_be payload with _ | v
      · exact hP
      · exact Nat.le_max_right v 1
  · split at h
    · rcases hs : sliceR data ps pe with _ | payload <;> rw [hs] at h
      · simp [Res.bind] at h
      · rw [Res.bind_ok] at h
        injection h with h1
        subst h1
        exact hP
    · injection h with h1
      subst h1
      exact hP

theorem parse_matroska_info_scale (data : List Nat) (start ed : Nat) :
    ∀ st st1, 1 ≤ st.timecode_scale →
      parse_matroska_info data start ed st = .ok st1 → 1 ≤ st1.timecode_scale := by
  intro st st1 hP h
  unfold parse_matroska_info at h
  exact ebmlLevel_preserve (fun s => 1 ≤ s.timecode_scale)
    (fun id ps pe s s1 => mkvInfoHandle_scale data id ps pe s s1) _ _ _ _ hP h

theorem mkvTracksHandle_scale (data : List Nat) :
    ∀ id ps pe st st1, 1 ≤ st.timecode_scale →
      mkvTracksHandle data id ps pe st = .ok st1 → 1 ≤ st1.timecode_scale := by
  intro id ps pe st st1 hP h
  unfold mkvTracksHandle at h
  split at h
  · rcases ht : parse_matroska_track_entry data ps pe with _ | tr <;> rw [ht] at h
    · simp [Res.bind] at h
    · rw [Res.bind_ok] at h
      split at h <;> (injection h with h1; subst h1; exact hP)
  · injection h with h1
    subst h1
    exact hP

theorem parse_matroska_tracks_scale (data : List Nat) (start ed : Nat) :
    ∀ st st1, 1 ≤ st.timecode_scale →
      parse_matroska_tracks data start ed st = .ok st1 → 1 ≤ st1.timecode_scale := by
  intro st st1 hP h
  unfold parse_matroska_tracks at h
  exact ebmlLevel_preserve (fun s => 1 ≤ s.timecode_scale)
    (fun id ps pe s s1 => mkvTracksHandle_scale data id ps pe s s1) _ _ _ _ hP h

theorem mkvSegmentHandle_scale (data : List Nat) :
    ∀ id ps pe st st1, 1 ≤ st.timecode_scale →
      mkvSegmentHandle data id ps pe st = .ok st1 → 1 ≤ st1.timecode_scale := by
  intro id ps pe st st1 hP h
  unfold mkvSegmentHandle at h
  split at h
  · exact parse_matroska_info_scale data ps pe st st1 hP h
  · split at h
    · exact parse_matroska_tracks_scale data ps pe st st1 hP h
    · injection h with h1
      subst h1
      exact hP

theorem parse_matroska_segment_scale (data : List Nat) (start ed : Nat) :
    ∀ st st1, 1 ≤ st.timecode_scale →
      parse_matroska_segment data start ed st = .ok st1 → 1 ≤ st1.timecode_scale := by
  intro st st1 hP h
  unfold parse_matroska_segment at h
  exact ebmlLevel_preserve (fun s => 1 ≤ s.timecode_scale)
    (fun id ps pe s s1 => mkvSegmentHandle_scale data id ps pe s s1) _ _ _ _ hP h

theorem mkvTopHandle_scale (data : List Nat) :
    ∀ id ps pe st st1, 1 ≤ st.timecode_scale →
      mkvTopHandle data id ps pe st = .ok st1 → 1 ≤ st1.timecode_scale := by
  intro id ps pe st st1 hP h
  unfold mkvTopHandle at h
  split at h
  · rcases hs : sliceR data ps pe with _ | payload <;> rw [hs] at h
    · simp [Res.bind] at h
    · rw [Res.bind_ok] at h
      injection h with h1
      subst h1
      simp only []
      split
      · exact hP
      · exact hP
  · split at h
    · exact parse_matroska_segment_scale data ps pe st st1 hP h
    · injection h with h1
      subst h1
      exact hP

/-- The TimecodeScale carried by the top-level scan is always at least
1: it starts at the default 1 000 000 and every update is floored
(`v.max(1)`). -/
theorem mkvScan_scale (data : List Nat) :
    ∀ st, mkvScan data = .ok st → 1 ≤ st.timecode_scale := by
  intro st h
  unfold mkvScan at h
  exact ebmlLevel_preserve (fun s => 1 ≤ s.timecode_scale)
    (fun id ps pe s s1 => mkvTopHandle_scale data id ps pe s s1) _ _ _ _ (by decide) h

theorem mem_enumFrom_snd {α : Type} :
    ∀ (l : List α) (n : Nat) (p : Nat × α), p ∈ List.enumFrom n l → p.2 ∈ l := by
  intro l
  induction l with
  | nil => intro n p hp; simp [List.enumFrom] at hp
  | cons a t ih =>
    intro n p hp
    simp only [List.enumFrom, List.mem_cons] at hp
    rcases hp with hp | hp
    · subst hp
      exact List.mem_cons_self a t
    · exact List.mem_cons_of_mem a (ih (n + 1) p hp)

theorem mkvVideoHandle_kind (payload : List Nat) :
    ∀ id ps pe tr tr1, mkvVideoHandle payload id ps pe tr = .ok tr1 →
      tr1.kind = tr.kind := by
  intro id ps pe tr tr1 h
  unfold mkvVideoHandle at h
  split at h
  · rcases hs : sliceR payload ps pe with _ | pl <;> rw [hs] at h
    · simp [Res.bind] at h
    · rw [Res.bind_ok] at h
      injection h with h1
      subst h1
      rfl
  · split at h
    · rcases hs : sliceR payload ps pe with _ | pl <;> rw [hs] at h
      · simp [Res.bind] at h
      · rw [Res.bind_ok] at h
        injection h with h1
        subst h1
        rfl
    · injection h with h1
      subst h1
      rfl

theorem parse_matroska_video_kind (payload : List Nat) (tr tr1 : MkvTrackTemp)
    (h : parse_matroska_video payload tr = .ok tr1) : tr1.kind = tr.kind := by
  unfold parse_matroska_video at h
  exact ebmlLevel_preserve (fun t => t.kind = tr.kind)
    (fun id ps pe t t1 hp hh => (mkvVideoHandle_kind payload id ps pe t t1 hh).trans hp)
    _ _ _ _ rfl h

theorem mkvAudioHandle_kind (payload : List Nat) :
    ∀ id ps pe tr tr1, mkvAudioHandle payload id ps pe tr = .ok tr1 →
      tr1.kind = tr.kind := by
  intro id ps pe tr tr1 h
  unfold mkvAudioHandle at h
  split at h
  · rcases hs : sliceR payload ps pe with _ | pl <;> rw [hs] at h
    · simp [Res.bind] at h
    · rw [Res.bind_ok] at h
      injection h with h1
      subst h1
      rfl
  · split at h
    · rcases hs : sliceR payload ps pe with _ | pl <;> rw [hs] at h
      · simp [Res.bind] at h
      · rw [Res.bind_ok] at h
        injection h with h1
        subst h1
        rfl
    · injection h with h1
      subst h1
      rfl

theorem parse_matroska_audio_kind (payload : List Nat) (tr tr1 : MkvTrackTemp)
    (h : parse_matroska_audio payload tr = .ok tr1) : tr1.kind = tr.kind := by
  unfold parse_matroska_audio at h
  exact ebmlLevel_preserve (fun t => t.kind = tr.kind)
    (fun id ps pe t t1 hp hh => (mkvAudioHandle_kind payload id ps pe t t1 hh).trans hp)
    _ _ _ _ rfl h

theorem mkvEntryHandle_kind (data : List Nat) :
    ∀ id ps pe tr tr1, kindRec tr.kind →
      mkvEntryHandle data id ps pe tr = .ok tr1 → kindRec tr1.kind := by
  intro id ps pe tr tr1 hP h
  unfold mkvEntryHandle at h
  rcases hs : sliceR data ps pe with _ | payload <;> rw [hs] at h
  · simp [Res.bind] at h
  · rw [Res.bind_ok] at h
    split at h
    · injection h with h1
      subst h1
      rcases read_uint_be payload with _ | v
      · exact hP
      · simp only []
        split
        · exact Or.inr (Or.inl rfl)
        · split
          · exact Or.inr (Or.inr (Or.inl rfl))
          · split
            · exact Or.inr (Or.inr (Or.inr rfl))
            · exact Or.inl rfl
    · split at h
      · injection h with h1
        subst h1
        simp only []
        split
        · exact hP
        · exact hP
      · split at h
        · injection h with h1
          subst h1
          simp only []
          split
          · exact hP
          · exact hP
        · split at h
          · injection h with h1
            subst h1
            exact hP
          · split at h
            · injection h with h1
              subst h1
              exact hP
            · split at h
              · injection h with h1
                subst h1
                rcases read_uint_be payload with _ | v
                · exact hP
                · simp only []
                  split
                  · exact hP
                  · exact hP
              · split at h
                · rw [parse_matroska_video_kind payload tr tr1 h]
                  exact hP
                · split at h
                  · rw [parse_matroska_audio_kind payload tr tr1 h]
                    exact hP
                  · injection h with h1
                    subst h1
                    exact hP

theorem parse_matroska_track_entry_kind (data : List Nat) (start ed : Nat)
    (tr : MkvTrackTemp) (h : parse_matroska_track_entry data start ed = .ok tr) :
    kindRec tr.kind := by
  unfold parse_matroska_track_entry at h
  exact ebmlLevel_preserve (fun t => kindRec t.kind)
    (fun id ps pe t t1 => mkvEntryHandle_kind data id ps pe t t1)
    _ _ _ _ (Or.inl rfl) h

theorem mkvInfoHandle_tracks (data : List Nat) :
    ∀ id ps pe st st1, mkvInfoHandle data id ps pe st = .ok st1 →
      st1.tracks = st.tracks := by
  intro id ps pe st st1 h
  unfold mkvInfoHandle at h
  split at h
  · rcases hs : sliceR data ps pe with _ | payload <;> rw [hs] at h
    · simp [Res.bind] at h
    · rw [Res.bind_ok] at h
      injection h with h1
      subst h1
      rcases read_uint_be payload with _ | v <;> rfl
  · split at h
    · rcases hs : sliceR data ps pe with _ | payload <;> rw [hs] at h
      · simp [Res.bind] at h
      · rw [Res.bind_ok] at h
        injection h with h1
        subst h1
        rfl
    · injection h with h1
      subst h1
      rfl

theorem parse_matroska_info_tracks (data : List Nat) (start ed : Nat) :
    ∀ st st1, parse_matroska_info data start ed st = .ok st1 →
      st1.tracks = st.tracks := by
  intro st st1 h
  unfold parse_matroska_info at h
  exact ebmlLevel_preserve (fun s => s.tracks = st.tracks)
    (fun id ps pe s s1 hp hh => (mkvInfoHandle_tracks data id ps pe s s1 hh).trans hp)
    _ _ _ _ rfl h

theorem mkvTracksHandle_rec (data : List Nat) :
    ∀ id ps pe st st1, tracksRecMkv st.tracks →
      mkvTracksHandle data id ps pe st = .ok st1 → tracksRecMkv st1.tracks := by
  intro id ps pe st st1 hP h
  unfold mkvTracksHandle at h
  split at h
  · rcases ht : parse_matroska_track_entry data ps pe with _ | tr <;> rw [ht] at h
    · simp [Res.bind] at h
    · rw [Res.bind_ok] at h
      split at h
      · rename_i hsome
        injection h with h1
        subst h1
        intro t hmem
        simp only [] at hmem
        rw [List.mem_append] at hmem
        rcases hmem with hmem | hmem
        · exact hP t hmem
        · rw [List.mem_singleton] at hmem
          subst hmem
          rcases parse_matroska_track_entry_kind data ps pe t ht with hk | hk
          · rw [hk] at hsome
            simp at hsome
          · exact hk
      · injection h with h1
        subst h1
        exact hP
  · injection h with h1
    subst h1
    exact hP

theorem parse_matroska_tracks_rec (data : List Nat) (start ed : Nat) :
    ∀ st st1, tracksRecMkv st.tracks →
      parse_matroska_tracks data start ed st = .ok st1 → tracksRecMkv st1.tracks := by
  intro st st1 hP h
  unfold parse_matroska_tracks at h
  exact ebmlLevel_preserve (fun s => tracksRecMkv s.tracks)
    (fun id ps pe s s1 => mkvTracksHandle_rec data id ps pe s s1) _ _ _ _ hP h

theorem mkvSegmentHandle_rec (data : List Nat) :
    ∀ id ps pe st st1, tracksRecMkv st.tracks →
      mkvSegmentHandle data id ps pe st = .ok st1 → tracksRecMkv st1.tracks := by
  intro id ps pe st st1 hP h
  unfold mkvSegmentHandle at h
  split at h
  · rw [parse_matroska_info_tracks data ps pe st st1 h]
    exact hP
  · split at h
    · exact parse_matroska_tracks_rec data ps pe st st1 hP h
    · injection h with h1
      subst h1
      exact hP

theorem parse_matroska_segment_rec (data : List Nat) (start ed : Nat) :
    ∀ st st1, tracksRecMkv st.tracks →
      parse_matroska_segment data start ed st = .ok st1 → tracksRecMkv st1.tracks := by
  intro st st1 hP h
  unfold parse_matroska_segment at h
  exact ebmlLevel_preserve (fun s => tracksRecMkv s.tracks)
    (fun id ps pe s s1 => mkvSegmentHandle_rec data id ps pe s s1) _ _ _ _ hP h

theorem mkvTopHandle_rec (data : List Nat) :
    ∀ id ps pe st st1, tracksRecMkv st.tracks →
      mkvTopHandle data id ps pe st = .ok st1 → tracksRecMkv st1.tracks := by
  intro id ps pe st st1 hP h
  unfold mkvTopHandle at h
  split at h
  · rcases hs : sliceR data ps pe with _ | payload <;> rw [hs] at h
    · simp [Res.bind] at h
    · rw [Res.bind_ok] at h
      injection h with h1
      subst h1
      simp only []
      split
      · exact hP
      · exact hP
  · split at h
    · exact parse_matroska_segment_rec data ps pe st st1 hP h
    · injection h with h1
      subst h1
      exact hP

/-- Every track collected by the Matroska scan has one of the three
recognized kinds. -/
theorem mkvScan_rec (data : List Nat) :
    ∀ st, mkvScan data = .ok st → tracksRecMkv st.tracks := by
  intro st h
  unfold mkvScan at h
  refine ebmlLevel_preserve (fun s => tracksRecMkv s.tracks)
    (fun id ps pe s s1 => mkvTopHandle_rec data id ps pe s s1) _ _ _ _ ?_ h
  intro t hmem
  simp at hmem

/-- Streams built from recognized tracks carry recognized kinds. -/
theorem mkvBuildStreams_kinds (tracks : List MkvTrackTemp) (hP : tracksRecMkv tracks) :
    ∀ s ∈ mkvBuildStreams tracks,
      s.kind = "video" ∨ s.kind = "audio" ∨ s.kind = "subtitle" := by
  intro s hs
  unfold mkvBuildStreams at hs
  rw [List.mem_filterMap] at hs
  obtain ⟨p, hp, hf⟩ := hs
  have hmem : p.2 ∈ tracks := mem_enumFrom_snd tracks 0 p hp
  rcases hk : p.2.kind with _ | k
  · rw [hk] at hf
    simp at hf
  · rw [hk] at hf
    simp only [] at hf
    injection hf with h1
    subst h1
    rcases hP p.2 hmem with h3 | h3 | h3 <;> rw [hk] at h3 <;>
      (injection h3 with h4)
    · exact Or.inl h4
    · exact Or.inr (Or.inl h4)
    · exact Or.inr (Or.inr h4)

theorem parse_tkhd_kind (payload : List Nat) (tr : Mp4TrackTemp) :
    (parse_tkhd payload tr).kind = tr.kind := by
  unfold parse_tkhd
  split
  · rfl
  · simp only []
    repeat' split
    all_goals rfl

theorem parse_hdlr_kind (payload : List Nat) (tr : Mp4TrackTemp) (hP : kindRec tr.kind) :
    kindRec (parse_hdlr payload tr).kind := by
  unfold parse_hdlr
  split
  · exact hP
  · simp only []
    split
    · exact Or.inr (Or.inl rfl)
    · split
      · exact Or.inr (Or.inr (Or.inl rfl))
      · split
        · exact Or.inr (Or.inr (Or.inr rfl))
        · exact hP

theorem parse_mdhd_kind (payload : List Nat) (ts : Option Nat) (tr : Mp4TrackTemp) :
    (parse_mdhd payload ts tr).2.kind = tr.kind := by
  unfold parse_mdhd
  split
  · rfl
  · split
    · split
      · rfl
      · split
        · rfl
        · split
          · rfl
          · simp only []
            split <;> rfl
    · split
      · rfl
      · split
        · rfl
        · simp only []
          split <;> rfl

theorem parse_stsd_kind (payload : List Nat) (tr : Mp4TrackTemp) :
    (parse_stsd payload tr).kind = tr.kind := by
  unfold parse_stsd
  repeat' (first | split | simp only [])

theorem parse_stts_kind (payload : List Nat) (ts : Option Nat) (tr : Mp4TrackTemp) :
    (parse_stts payload ts tr).kind = tr.kind := by
  unfold parse_stts
  repeat' (first | split | simp only [])

theorem mp4StblHandle_kind (data : List Nat) (ts : Option Nat) :
    ∀ typ ps pe tr tr1, mp4StblHandle data ts typ ps pe tr = .ok tr1 →
      tr1.kind = tr.kind := by
  intro typ ps pe tr tr1 h
  unfold mp4StblHandle at h
  split at h
  · rcases hs : sliceR data ps pe with _ | pl <;> rw [hs] at h
    · simp [Res.bind] at h
    · rw [Res.bind_ok] at h
      injection h with h1
      subst h1
      exact parse_stsd_kind pl tr
  · split at h
    · rcases hs : sliceR data ps pe with _ | pl <;> rw [hs] at h
      · simp [Res.bind] at h
      · rw [Res.bind_ok] at h
        injection h with h1
        subst h1
        exact parse_stts_kind pl ts tr
    · injection h with h1
      subst h1
      rfl

theorem parse_stbl_kind (data : List Nat) (start ed : Nat) (ts : Option Nat)
    (tr tr1 : Mp4TrackTemp) (h : parse_stbl data start ed ts tr = .ok tr1) :
    tr1.kind = tr.kind := by
  unfold parse_stbl at h
  exact mp4Level_preserve (fun t => t.kind = tr.kind)
    (fun typ ps pe t t1 hp hh => (mp4StblHandle_kind data ts typ ps pe t t1 hh).trans hp)
    _ _ _ _ rfl h

theorem mp4MinfHandle_kind (data : List Nat) (ts : Option Nat) :
    ∀ typ ps pe tr tr1, mp4MinfHandle data ts typ ps pe tr = .ok tr1 →
      tr1.kind = tr.kind := by
  intro typ ps pe tr tr1 h
  unfold mp4MinfHandle at h
  split at h
  · exact parse_stbl_kind data ps pe ts tr tr1 h
  · injection h with h1
    subst h1
    rfl

theorem parse_minf_kind (data : List Nat) (start ed : Nat) (ts : Option Nat)
    (tr tr1 : Mp4TrackTemp) (h : parse_minf data start ed ts tr = .ok tr1) :
    tr1.kind = tr.kind := by
  unfold parse_minf at h
  exact mp4Level_preserve (fun t => t.kind = tr.kind)
    (fun typ ps pe t t1 hp hh => (mp4MinfHandle_kind data ts typ ps pe t t1 hh).trans hp)
    _ _ _ _ rfl h

theorem mp4MdiaHandle_kind (data : List Nat) :
    ∀ typ ps pe st st1, kindRec st.2.kind →
      mp4MdiaHandle data typ ps pe st = .ok st1 → kindRec st1.2.kind := by
  intro typ ps pe st st1 hP h
  unfold mp4MdiaHandle at h
  split at h
  · rcases hs : sliceR data ps pe with _ | pl <;> rw [hs] at h
    · simp [Res.bind] at h
    · rw [Res.bind_ok] at h
      injection h with h1
      subst h1
      exact parse_hdlr_kind pl st.2 hP
  · split at h
    · rcases hs : sliceR data ps pe with _ | pl <;> rw [hs] at h
      · simp [Res.bind] at h
      · rw [Res.bind_ok] at h
        injection h with h1
        subst h1
        rw [parse_mdhd_kind pl st.1 st.2]
        exact hP
    · split at h
      · rcases hm : parse_minf data ps pe st.1 st.2 with _ | tr <;> rw [hm] at h
        · simp [Res.bind] at h
        · rw [Res.bind_ok] at h
          injection h with h1
          subst h1
          simp only []
          rw [parse_minf_kind data ps pe st.1 st.2 tr hm]
          exact hP
      · injection h with h1
        subst h1
        exact hP

theorem parse_mdia_kind (data : List Nat) (start ed : Nat)
    (tr tr1 : Mp4TrackTemp) (hP : kindRec tr.kind)
    (h : parse_mdia data start ed tr = .ok tr1) : kindRec tr1.kind := by
  unfold parse_mdia at h
  rcases hm : mp4Level data ed (mp4MdiaHandle data) (ed - start + 1) start (none, tr) with
      _ | st <;> rw [hm] at h
  · simp [Res.bind] at h
  · rw [Res.bind_ok] at h
    injection h with h1
    subst h1
    exact mp4Level_preserve (fun s => kindRec s.2.kind)
      (fun typ ps pe s s1 => mp4MdiaHandle_kind data typ ps pe s s1) _ _ _ _ hP hm

theorem mp4TrakHandle_kind (data : List Nat) :
    ∀ typ ps pe tr tr1, kindRec tr.kind →
      mp4TrakHandle data typ ps pe tr = .ok tr1 → kindRec tr1.kind := by
  intro typ ps pe tr tr1 hP h
  unfold mp4TrakHandle at h
  split at h
  · rcases hs : sliceR data ps pe with _ | pl <;> rw [hs] at h
    · simp [Res.bind] at h
    · rw [Res.bind_ok] at h
      injection h with h1
      subst h1
      rw [parse_tkhd_kind pl tr]
      exact hP
  · split at h
    · exact parse_mdia_kind data ps pe tr tr1 hP h
    · injection h with h1
      subst h1
      exact hP

theorem parse_trak_kind (data : List Nat) (start ed : Nat) (tr : Mp4TrackTemp)
    (h : parse_trak data start ed = .ok tr) : kindRec tr.kind := by
  unfold parse_trak at h
  exact mp4Level_preserve (fun t => kindRec t.kind)
    (fun typ ps pe t t1 => mp4TrakHandle_kind data typ ps pe t t1)
    _ _ _ _ (Or.inl rfl) h

theorem mp4MoovHandle_rec (data : List Nat) :
    ∀ typ ps pe st st1, tracksRecMp4 st.2 →
      mp4MoovHandle data typ ps pe st = .ok st1 → tracksRecMp4 st1.2 := by
  intro typ ps pe st st1 hP h
  unfold mp4MoovHandle at h
  split at h
  · rcases hs : sliceR data ps pe with _ | pl <;> rw [hs] at h
    · simp [Res.bind] at h
    · rw [Res.bind_ok] at h
      injection h with h1
      subst h1
      rcases parse_mvhd pl with _ | d
      · exact hP
      · exact hP
  · split at h
    · rcases ht : parse_trak data ps pe with _ | tr <;> rw [ht] at h
      · simp [Res.bind] at h
      · rw [Res.bind_ok] at h
        split at h
        · rename_i hsome
          injection h with h1
          subst h1
          intro t hmem
          simp only [] at hmem
          rw [List.mem_append] at hmem
          rcases hmem with hmem | hmem
          · exact hP t hmem
          · rw [List.mem_singleton] at hmem
            subst hmem
            rcases parse_trak_kind data ps pe t ht with hk | hk
            · rw [hk] at hsome
              simp at hsome
            · exact hk
        · injection h with h1
          subst h1
          exact hP
    · injection h with h1
      subst h1
      exact hP

theorem parse_moov_rec (data : List Nat) (start ed : Nat)
    (st st1 : F64 × List Mp4TrackTemp) (hP : tracksRecMp4 st.2)
    (h : parse_moov data start ed st = .ok st1) : tracksRecMp4 st1.2 := by
  unfold parse_moov at h
  exact mp4Level_preserve (fun s => tracksRecMp4 s.2)
    (fun typ ps pe s s1 => mp4MoovHandle_rec data typ ps pe s s1) _ _ _ _ hP h

theorem mp4TopHandle_rec (data : List Nat) :
    ∀ typ ps pe st st1, tracksRecMp4 st.tracks →
      mp4TopHandle data typ ps pe st = .ok st1 → tracksRecMp4 st1.tracks := by
  intro typ ps pe st st1 hP h
  unfold mp4TopHandle at h
  split at h
  · split at h
    · rcases hs : sliceR data ps (ps + 4) with _ | pl <;> rw [hs] at h
      · simp [Res.bind] at h
      · rw [Res.bind_ok] at h
        simp only [] at h
        split at h <;> (injection h with h1; subst h1; exact hP)
    · injection h with h1
      subst h1
      exact hP
  · split at h
    · rcases hm : parse_moov data ps pe (st.duration, st.tracks) with _ | p <;> rw [hm] at h
      · simp [Res.bind] at h
      · rw [Res.bind_ok] at h
        injection h with h1
        subst h1
        exact parse_moov_rec data ps pe (st.duration, st.tracks) p hP hm
    · injection h with h1
      subst h1
      exact hP

/-- Every track collected by the MP4 scan has one of the three
recognized kinds. -/
theorem mp4Scan_rec (data : List Nat) :
    ∀ st, mp4Scan data = .ok st → tracksRecMp4 st.tracks := by
  intro st h
  unfold mp4Scan at h
  refine mp4Level_preserve (fun s => tracksRecMp4 s.tracks)
    (fun typ ps pe s s1 => mp4TopHandle_rec data typ ps pe s s1) _ _ _ _ ?_ h
  intro t hmem
  simp at hmem

/-- Streams built from recognized tracks carry recognized kinds. -/
theorem mp4BuildStreams_kinds (tracks : List Mp4TrackTemp) (hP : tracksRecMp4 tracks) :
    ∀ s ∈ mp4BuildStreams tracks,
      s.kind = "video" ∨ s.kind = "audio" ∨ s.kind = "subtitle" := by
  intro s hs
  unfold mp4BuildStreams at hs
  rw [List.mem_filterMap] at hs
  obtain ⟨p, hp, hf⟩ := hs
  have hmem : p.2 ∈ tracks := mem_enumFrom_snd tracks 0 p hp
  rcases hk : p.2.kind with _ | k
  · rw [hk] at hf
    simp at hf
  · rw [hk] at hf
    simp only [] at hf
    injection hf with h1
    subst h1
    rcases hP p.2 hmem with h3 | h3 | h3 <;> rw [hk] at h3 <;>
      (injection h3 with h4)
    · exact Or.inl h4
    · exact Or.inr (Or.inl h4)
    · exact Or.inr (Or.inr h4)

theorem mkvAssemble_some (st : MkvSt) (r : QuickProbeResult)
    (h : mkvAssemble st = some r) :
    r.streams = mkvBuildStreams st.tracks ∧ r.streams ≠ [] ∧ r.format = st.format ∧
      r.duration = (match st.duration_ticks with
        | some ticks =>
          F64.div (F64.mul ticks (F64.fin (st.timecode_scale : ℚ))) (F64.fin 1000000000)
        | none => F64.fin 0) := by
  unfold mkvAssemble at h
  split at h
  · simp at h
  · rename_i hne
    injection h with h1
    subst h1
    refine ⟨rfl, ?_, rfl, rfl⟩
    intro hnil
    exact hne (by
      rw [show mkvBuildStreams st.tracks = ([] : List QuickStreamInfo) from hnil]
      rfl)

theorem mkvAssemble_of_no_tracks (st : MkvSt) (h : mkvBuildStreams st.tracks = []) :
    mkvAssemble st = none := by
  unfold mkvAssemble
  rw [h]
  rfl

theorem mp4Assemble_some (st : Mp4St) (r : QuickProbeResult)
    (h : mp4Assemble st = some r) :
    st.has_ftyp = true ∧ r.streams = mp4BuildStreams st.tracks ∧ r.streams ≠ [] ∧
      r.format = st.format ∧
      r.duration = (if F64.ble st.duration (F64.fin 0) = true then
        mp4MaxTrackDuration st.tracks else st.duration) := by
  unfold mp4Assemble at h
  split at h
  · simp at h
  · rename_i hftyp
    split at h
    · simp at h
    · rename_i hne
      injection h with h1
      subst h1
      refine ⟨by revert hftyp; cases st.has_ftyp <;> simp, rfl, ?_, rfl, rfl⟩
      intro hnil
      exact hne (by
        rw [show mp4BuildStreams st.tracks = ([] : List QuickStreamInfo) from hnil]
        rfl)

theorem mp4Assemble_of_no_tracks (st : Mp4St) (h : mp4BuildStreams st.tracks = []) :
    mp4Assemble st = none := by
  unfold mp4Assemble
  split
  · rfl
  · rw [h]
    rfl

theorem parse_matroska_some_inv (data : List Nat) (r : QuickProbeResult)
    (h : parse_matroska data = .ok (some r)) :
    ∃ st, mkvScan data = .ok st ∧ mkvAssemble st = some r := by
  unfold parse_matroska at h
  split at h
  · simp at h
  · obtain ⟨st, hst⟩ := mkvScan_ok data
    rw [hst, Res.bind_ok] at h
    injection h with h1
    exact ⟨st, hst, h1⟩

theorem parse_mp4_some_inv (data : List Nat) (r : QuickProbeResult)
    (h : parse_mp4 data = .ok (some r)) :
    ∃ st, mp4Scan data = .ok st ∧ mp4Assemble st = some r := by
  unfold parse_mp4 at h
  split at h
  · simp at h
  · obtain ⟨st, hst, hf⟩ := Res.bind_ok_inv h
    injection hf with h1
    exact ⟨st, hst, h1⟩

theorem next_mp4_box_reject_header (data : List Nat) (offset limit : Nat)
    (h : limit < offset + 8) : next_mp4_box data offset limit = none := by
  unfold next_mp4_box
  rw [if_pos (Or.inl (by omega))]

theorem next_mp4_box_reject_small (data : List Nat) (offset limit s : Nat)
    (hr : read_u32_be data offset = some s) (h2 : 2 ≤ s) (h8 : s < 8) :
    next_mp4_box data offset limit = none := by
  unfold next_mp4_box
  split
  · rfl
  · rw [hr]
    simp only []
    rw [if_neg (by omega : ¬s = 1), if_neg (by omega : ¬s = 0)]
    simp only []
    rw [if_pos (by omega : s < 8)]

theorem next_mp4_box_reject_small_ext (data : List Nat) (offset limit s64 : Nat)
    (hr : read_u32_be data offset = some 1)
    (hr64 : read_u64_be data (offset + 8) = some s64) (h : s64 < 16) :
    next_mp4_box data offset limit = none := by
  unfold next_mp4_box
  split
  · rfl
  · rw [hr]
    simp only []
    rw [if_true]
    split
    · rfl
    · rename_i v hdr heq
      split at heq
      · simp at heq
      · rw [hr64] at heq
        simp only [] at heq
        injection heq with heq1
        injection heq1 with hq1 hq2
        subst hq1
        subst hq2
        rw [if_pos (by omega : s64 < 16)]

theorem next_mp4_box_reject_end (data : List Nat) (offset limit s : Nat)
    (hr : read_u32_be data offset = some s) (h8 : 8 ≤ s)
    (h : limit < offset + s) : next_mp4_box data offset limit = none := by
  have hlt := read_u32_be_lt hr
  unfold next_mp4_box
  split
  · rfl
  · rw [hr]
    simp only []
    rw [if_neg (by omega : ¬s = 1), if_neg (by omega : ¬s = 0)]
    simp only []
    rw [if_neg (by omega : ¬s < 8), Nat.mod_eq_of_lt hlt]
    by_cases hovf : 2 ^ 32 ≤ offset + s
    · rw [if_pos hovf]
    · rw [if_neg hovf, if_pos (Or.inl (by omega : offset + s > limit))]

/-- C1 is false on the deployed target: the no-panic contract breaks
on a 24-byte `moov` box whose `mvhd` child declares the extended
64-bit size `2 ^ 32`.  On wasm32 (`usize` 32 bits) the cast
`size as usize` truncates that size to 0 after the `size < header`
check passed on the full 64-bit value, so `next_mp4_box` returns
payload bounds 24..8 with a non-advancing next offset, and
`parse_moov`'s `&data[24..8]` slice panics; the crash propagates to
`parse_media_header_json`. -/
theorem C1_truncation_crash :
    next_mp4_box mp4MoovTruncBuf 8 24 =
      some ([0x6D, 0x76, 0x68, 0x64], 24, 8, 8) ∧
    parse_media_header_json mp4MoovTruncBuf = .crash :=
  ⟨rfl, rfl⟩

/-- Counterexample to C2 as stated: on the 32-bit target an extended
size of `2 ^ 32` truncates to 0 after the `size < header` check, so
`next_mp4_box` returns a box whose next offset equals the input offset
(no strict advance) and whose payload end lies below its start. -/
theorem C2_counterexample :
    next_mp4_box mp4MoovTruncBuf 8 24 =
      some ([0x6D, 0x76, 0x68, 0x64], 24, 8, 8) ∧
    ¬((8 : Nat) < 8) ∧ ¬((24 : Nat) ≤ 8) :=
  ⟨rfl, by omega, by omega⟩

/-- C2 (amended): every traversal loop terminates on every input.
`next_mp4_box` rejects a size smaller than its own header, a header
that does not fit before the bound, and an end past the bound; a
returned box never moves the next offset backwards, and strictly
advances it whenever the size came from the plain 32-bit size field —
only an extended 64-bit size truncated modulo `2 ^ 32` on the 32-bit
target can fail to advance, and the walkers break on such a
non-advancing box right after dispatching it; EBML headers always
occupy at least one byte each; consequently both generic loops are
insensitive to any fuel covering the distance to the bound — their
iteration count is bounded by the input. -/
theorem C2_walkers_terminate :
    (∀ data offset limit typ ps pe nx,
        next_mp4_box data offset limit = some (typ, ps, pe, nx) →
        offset ≤ nx ∧ nx ≤ limit ∧ nx ≤ data.length ∧ offset < ps) ∧
    (∀ data offset limit typ ps pe nx s,
        read_u32_be data offset = some s → 2 ≤ s →
        next_mp4_box data offset limit = some (typ, ps, pe, nx) →
        offset < nx) ∧
    (∀ data offset limit, limit < offset + 8 →
        next_mp4_box data offset limit = none) ∧
    (∀ data offset limit s, read_u32_be data offset = some s → 2 ≤ s → s < 8 →
        next_mp4_box data offset limit = none) ∧
    (∀ data offset limit s64, read_u32_be data offset = some 1 →
        read_u64_be data (offset + 8) = some s64 → s64 < 16 →
        next_mp4_box data offset limit = none) ∧
    (∀ data offset limit s, read_u32_be data offset = some s → 8 ≤ s →
        limit < offset + s → next_mp4_box data offset limit = none) ∧
    (∀ data offset id id_len, read_ebml_id data offset = some (id, id_len) →
        1 ≤ id_len) ∧
    (∀ data offset v size_len unknown,
        read_ebml_size data offset = some (v, size_len, unknown) → 1 ≤ size_len) ∧
    (∀ (σ : Type) data limit handle fuel offset (st st1 : σ) typ ps pe nx,
        next_mp4_box data offset limit = some (typ, ps, pe, nx) → nx ≤ offset →
        handle typ ps pe st = .ok st1 →
        mp4Level data limit handle (fuel + 1) offset st = .ok st1) ∧
    (∀ (σ : Type) data limit handle fuel gfuel offset (st : σ),
        limit < offset + fuel → limit < offset + gfuel →
        mp4Level data limit handle fuel offset st =
          mp4Level data limit handle gfuel offset st) ∧
    (∀ (σ : Type) data ed handle fuel gfuel offset (st : σ),
        ed ≤ offset + fuel → ed ≤ offset + gfuel →
        ebmlLevel data ed handle fuel offset st =
          ebmlLevel data ed handle gfuel offset st) := by
  refine ⟨?_, ?_, ?_, ?_, ?_, ?_, ?_, ?_, ?_, ?_, ?_⟩
  · intro data offset limit typ ps pe nx h
    have hb := next_mp4_box_bounds h
    omega
  · intro data offset limit typ ps pe nx s hr h2 hbox
    have hlt := read_u32_be_lt hr
    unfold next_mp4_box at hbox
    split at hbox
    · simp at hbox
    · rw [hr] at hbox
      simp only [] at hbox
      rw [if_neg (by omega : ¬s = 1), if_neg (by omega : ¬s = 0)] at hbox
      simp only [] at hbox
      split at hbox
      · simp at hbox
      · split at hbox
        · simp at hbox
        · split at hbox
          · simp at hbox
          · rename_i hsm hovf hend
            injection hbox with h1
            injection h1 with ht h2'
            injection h2' with hps h3
            injection h3 with hpe hnx
            have hmod : s % 2 ^ 32 = s := Nat.mod_eq_of_lt hlt
            omega
  · exact next_mp4_box_reject_header
  · exact next_mp4_box_reject_small
  · exact next_mp4_box_reject_small_ext
  · exact next_mp4_box_reject_end
  · intro data offset id id_len h
    exact (read_ebml_id_bounds h).1
  · intro data offset v size_len unknown h
    exact (read_ebml_size_bounds h).1
  · intro σ data limit handle fuel offset st st1 typ ps pe nx hbox hle hh
    rw [mp4Level_succ, hbox]
    simp only []
    rw [hh, Res.bind_ok, if_pos hle]
  · intro σ data limit handle fuel gfuel offset st hf hg
    exact mp4Level_fuel_stable data limit handle fuel gfuel offset st hf hg
  · intro σ data ed handle fuel gfuel offset st hf hg
    exact ebmlLevel_fuel_stable data ed handle fuel gfuel offset st hf hg

/-- Witness for the amended C2 at concrete boxes, headers and loops,
including the truncated non-advancing box that stops its loop. -/
theorem C2_witness :
    ((0 : Nat) ≤ 16 ∧ 16 ≤ 252 ∧ 16 ≤ mp4Buf.length ∧ 0 < 8) ∧
    (0 : Nat) < 16 ∧
    next_mp4_box ([] : List Nat) 0 0 = none ∧
    next_mp4_box [0, 0, 0, 5, 102, 116, 121, 112] 0 8 = none ∧
    next_mp4_box [0, 0, 0, 1, 102, 116, 121, 112, 0, 0, 0, 0, 0, 0, 0, 8] 0 16 = none ∧
    next_mp4_box [0, 0, 0, 32, 102, 116, 121, 112] 0 8 = none ∧
    (1 : Nat) ≤ 1 ∧
    mp4Level mp4MoovTruncBuf 24 (fun _ _ _ (n : Nat) => .ok n) 1 8 0 = .ok 0 ∧
    mp4Level ([] : List Nat) 0 (fun _ _ _ (n : Nat) => .ok n) 1 0 0 =
      mp4Level ([] : List Nat) 0 (fun _ _ _ (n : Nat) => .ok n) 2 0 0 ∧
    ebmlLevel ([] : List Nat) 0 (fun _ _ _ (n : Nat) => .ok n) 1 0 0 =
      ebmlLevel ([] : List Nat) 0 (fun _ _ _ (n : Nat) => .ok n) 2 0 0 := by
  obtain ⟨c1, c2, c3, c4, c5, c6, c7, c8, c9, c10, c11⟩ := C2_walkers_terminate
  refine ⟨?_, ?_, ?_, ?_, ?_, ?_, ?_, ?_, ?_, ?_⟩
  · have := c1 mp4Buf 0 252 [0x66, 0x74, 0x79, 0x70] 8 16 16 (by decide)
    omega
  · exact c2 mp4Buf 0 252 [0x66, 0x74, 0x79, 0x70] 8 16 16 16 (by decide)
      (by omega) (by decide)
  · exact c3 [] 0 0 (by omega)
  · exact c4 [0, 0, 0, 5, 102, 116, 121, 112] 0 8 5 (by decide) (by omega) (by omega)
  · exact c5 [0, 0, 0, 1, 102, 116, 121, 112, 0, 0, 0, 0, 0, 0, 0, 8] 0 16 8
      (by decide) (by decide) (by omega)
  · exact c6 [0, 0, 0, 32, 102, 116, 121, 112] 0 8 32 (by decide) (by omega) (by omega)
  · exact c7 [0xAE] 0 0xAE 1 (by decide)
  · exact c9 Nat mp4MoovTruncBuf 24 (fun _ _ _ n => .ok n) 0 8 0 0
      [0x6D, 0x76, 0x68, 0x64] 24 8 8 (by decide) (by omega) rfl
  · exact c10 Nat [] 0 (fun _ _ _ n => .ok n) 1 2 0 0 (by omega) (by omega)
  · exact c11 Nat [] 0 (fun _ _ _ n => .ok n) 1 2 0 0 (by omega) (by omega)

/-- C3: an EBML size whose usable bits are all ones is reported as
unknown (the flag holds exactly for the all-ones value of the encoded
width), and the walker then hands the payload extending to the
enclosing end bound to the handler and scans no further sibling at
that level. -/
theorem C3_unknown_size_to_end :
    (∀ data offset v size_len unknown,
        read_ebml_size data offset = some (v, size_len, unknown) →
        (unknown = true ↔ v = 2 ^ (7 * size_len) - 1)) ∧
    (∀ (σ : Type) data ed handle fuel offset (st : σ) id id_len size size_len,
        offset < ed →
        read_ebml_id data offset = some (id, id_len) →
        read_ebml_size data (offset + id_len) = some (size, size_len, true) →
        offset + id_len + size_len < ed →
        ebmlLevel data ed handle (fuel + 1) offset st =
          Res.bind (handle id (offset + id_len + size_len) ed st) fun st1 =>
            .ok st1) := by
  constructor
  · intro data offset v size_len unknown h
    exact (read_ebml_size_bounds h).2.2.2
  · intro σ data ed handle fuel offset st id id_len size size_len hlt hid hsz hps
    rw [ebmlLevel_succ, if_pos hlt, hid]
    simp only []
    rw [hsz]
    simp only []
    rw [if_neg (by omega : ¬ed < offset + id_len + size_len)]
    simp only [if_true]
    rw [if_neg (by omega : ¬ed ≤ offset + id_len + size_len)]

/-- Witness for C3 at a one-byte all-ones size and a concrete
unknown-size element. -/
theorem C3_witness :
    ((true = true) ↔ (127 : Nat) = 2 ^ (7 * 1) - 1) ∧
    ebmlLevel [0xAE, 0xFF, 0x01] 3 (fun _ _ _ (n : Nat) => .ok (n + 1)) 1 0 0 =
      Res.bind ((fun _ _ _ (n : Nat) => Res.ok (n + 1)) 0xAE 2 3 0) fun st1 =>
        .ok st1 := by
  obtain ⟨c1, c2⟩ := C3_unknown_size_to_end
  constructor
  · exact c1 [0xAE, 0xFF, 0x01] 1 127 1 true (by decide)
  · exact c2 Nat [0xAE, 0xFF, 0x01] 3 (fun _ _ _ n => .ok (n + 1)) 0 0 0 0xAE 1 127 1
      (by omega) (by decide) (by decide) (by omega)

/-- C4: for a video track, a first sample-description entry of at
least 36 bytes makes `parse_stsd` set width and height to the u16
values at payload offsets 40 and 42, regardless of any prior (tkhd)
values; concretely, `mp4Buf` declares 100 × 50 in `tkhd` and 640 × 360
in the `stsd` entry and reports 640 × 360. -/
theorem C4_stsd_overrides_tkhd :
    (∀ payload tr ec sz, tr.kind = some "video" →
        16 ≤ payload.length →
        read_u32_be payload 4 = some ec → ec ≠ 0 →
        read_u32_be payload 8 = some sz → 36 ≤ sz → 8 + sz ≤ payload.length →
        (parse_stsd payload tr).width = read_u16_be payload 40 ∧
        (parse_stsd payload tr).height = read_u16_be payload 42) ∧
    parse_mp4 mp4Buf = .ok (some mp4BufResult) := by
  constructor
  · intro payload tr ec sz hk hlen hec hecne hsz h36 hfit
    unfold parse_stsd
    rw [if_neg (by omega : ¬payload.length < 16), hec]
    simp only []
    rw [if_neg hecne, if_neg (by omega : ¬8 + 8 > payload.length), hsz]
    simp only []
    rw [if_neg (by
      omega : ¬(sz < 8 ∨ 8 + sz > payload.length))]
    simp [hk, h36]
  · rfl

/-- Witness for C4 at the stsd payload of `mp4Buf`. -/
theorem C4_witness :
    (parse_stsd ([0, 0, 0, 0] ++ [0, 0, 0, 1] ++ u32b 36 ++ [0x61, 0x76, 0x63, 0x31] ++
        List.replicate 24 0 ++ [2, 128] ++ [1, 104])
      ⟨some "video", none, some 100, some 50, none, none, none, none, none⟩).width =
        some 640 ∧
    (parse_stsd ([0, 0, 0, 0] ++ [0, 0, 0, 1] ++ u32b 36 ++ [0x61, 0x76, 0x63, 0x31] ++
        List.replicate 24 0 ++ [2, 128] ++ [1, 104])
      ⟨some "video", none, some 100, some 50, none, none, none, none, none⟩).height =
        some 360 := by
  have h := C4_stsd_overrides_tkhd.1
    ([0, 0, 0, 0] ++ [0, 0, 0, 1] ++ u32b 36 ++ [0x61, 0x76, 0x63, 0x31] ++
      List.replicate 24 0 ++ [2, 128] ++ [1, 104])
    ⟨some "video", none, some 100, some 50, none, none, none, none, none⟩ 1 36
    rfl (by decide) (by decide) (by decide) (by decide) (by decide) (by decide)
  exact ⟨h.1.trans (by decide), h.2.trans (by decide)⟩

/-- C5: a stream appears in either extractor's output only with a
recognized kind (`video`/`audio`/`subtitle`); a produced result always
has a non-empty stream list; and a scan that collected zero usable
tracks makes the extractor report `none`, so the dispatcher can fall
through. -/
theorem C5_streams_recognized_nonempty :
    (∀ data r, parse_mp4 data = .ok (some r) → r.streams ≠ [] ∧
        ∀ s ∈ r.streams, s.kind = "video" ∨ s.kind = "audio" ∨ s.kind = "subtitle") ∧
    (∀ data r, parse_matroska data = .ok (some r) → r.streams ≠ [] ∧
        ∀ s ∈ r.streams, s.kind = "video" ∨ s.kind = "audio" ∨ s.kind = "subtitle") ∧
    (∀ data st, mp4Scan data = .ok st → st.tracks = [] →
        parse_mp4 data = .ok none) ∧
    (∀ data st, mkvScan data = .ok st → st.tracks = [] →
        parse_matroska data = .ok none) := by
  refine ⟨?_, ?_, ?_, ?_⟩
  · intro data r h
    obtain ⟨st, hst, ha⟩ := parse_mp4_some_inv data r h
    obtain ⟨_, hstreams, hne, _, _⟩ := mp4Assemble_some st r ha
    refine ⟨hne, ?_⟩
    rw [hstreams]
    exact mp4BuildStreams_kinds st.tracks (mp4Scan_rec data st hst)
  · intro data r h
    obtain ⟨st, hst, ha⟩ := parse_matroska_some_inv data r h
    obtain ⟨hstreams, hne, _, _⟩ := mkvAssemble_some st r ha
    refine ⟨hne, ?_⟩
    rw [hstreams]
    exact mkvBuildStreams_kinds st.tracks (mkvScan_rec data st hst)
  · intro data st hst htr
    unfold parse_mp4
    split
    · rfl
    · rw [hst, Res.bind_ok,
        mp4Assemble_of_no_tracks st (by rw [htr]; rfl)]
  · intro data st hst htr
    unfold parse_matroska
    split
    · rfl
    · rw [hst, Res.bind_ok,
        mkvAssemble_of_no_tracks st (by rw [htr]; rfl)]

/-- Witness for C5 at `mp4Buf`, `mkvMinBuf`, and the zero-track
buffers. -/
theorem C5_witness :
    (mp4BufResult.streams ≠ [] ∧
      ∀ s ∈ mp4BufResult.streams,
        s.kind = "video" ∨ s.kind = "audio" ∨ s.kind = "subtitle") ∧
    ((⟨F64.fin 0, 0, "matroska", [mkvMinStream], []⟩ : QuickProbeResult).streams ≠ []) ∧
    parse_mp4 mp4NoTrackBuf = .ok none ∧
    parse_matroska mkvNoTrackBuf = .ok none := by
  obtain ⟨c1, c2, c3, c4⟩ := C5_streams_recognized_nonempty
  refine ⟨c1 mp4Buf mp4BufResult rfl, ?_, ?_, ?_⟩
  · exact (c2 mkvMinBuf ⟨F64.fin 0, 0, "matroska", [mkvMinStream], []⟩ rfl).1
  · exact c3 mp4NoTrackBuf ⟨true, "isom", F64.fin 0, []⟩ rfl rfl
  · exact c4 mkvNoTrackBuf ⟨"matroska", none, 1000000, []⟩ rfl rfl

/-- C6: codec normalization follows the case-insensitive substring
priority list, with the lowercased raw string as fallback: the four
cited examples evaluate as claimed, and any string containing none of
the listed substrings maps to its lowercased self. -/
theorem C6_codec_normalization :
    normalize_mkv_codec "V_MPEG4/ISO/AVC" = "h264" ∧
    normalize_mkv_codec "A_OPUS" = "opus" ∧
    normalize_mkv_codec "X_CUSTOM" = "x_custom" ∧
    normalize_mkv_codec "V_MPEGH/ISO/HEVC" = "hevc" ∧
    (∀ s : String,
      hasSub "av1".data (asciiLower s).data = false →
      hasSub "vp9".data (asciiLower s).data = false →
      hasSub "vp8".data (asciiLower s).data = false →
      hasSub "h264".data (asciiLower s).data = false →
      hasSub "avc".data (asciiLower s).data = false →
      hasSub "hevc".data (asciiLower s).data = false →
      hasSub "h265".data (asciiLower s).data = false →
      hasSub "opus".data (asciiLower s).data = false →
      hasSub "aac".data (asciiLower s).data = false →
      hasSub "vorbis".data (asciiLower s).data = false →
      normalize_mkv_codec s = asciiLower s) := by
  refine ⟨rfl, rfl, rfl, rfl, ?_⟩
  intro s h1 h2 h3 h4 h5 h6 h7 h8 h9 h10
  unfold normalize_mkv_codec
  simp [h1, h2, h3, h4, h5, h6, h7, h8, h9, h10]

/-- Witness for C6's fallback clause at `X_CUSTOM`. -/
theorem C6_witness : normalize_mkv_codec "X_CUSTOM" = asciiLower "X_CUSTOM" :=
  C6_codec_normalization.2.2.2.2 "X_CUSTOM" (by decide) (by decide) (by decide)
    (by decide) (by decide) (by decide) (by decide) (by decide) (by decide) (by decide)

/-- C7: whenever the Matroska extractor produces a result, its
duration is Duration ticks × TimecodeScale / 1e9 (0 when Duration is
absent), where the carried TimecodeScale starts at the default
1 000 000 and is always at least 1; the cited
TimecodeScale = 1 000 000, Duration = 5000.0 example yields exactly 5
seconds. -/
theorem C7_duration_formula :
    (∀ data st r, mkvScan data = .ok st → parse_matroska data = .ok (some r) →
        1 ≤ st.timecode_scale ∧
        r.duration = (match st.duration_ticks with
          | some ticks =>
            F64.div (F64.mul ticks (F64.fin (st.timecode_scale : ℚ)))
              (F64.fin 1000000000)
          | none => F64.fin 0)) ∧
    parse_matroska mkvDurBuf = .ok (some ⟨F64.fin 5, 0, "matroska", [mkvMinStream], []⟩) := by
  constructor
  · intro data st r hst h
    obtain ⟨st2, hst2, ha⟩ := parse_matroska_some_inv data r h
    rw [hst] at hst2
    injection hst2 with he
    subst he
    exact ⟨mkvScan_scale data st hst, (mkvAssemble_some st r ha).2.2.2⟩
  · rfl

/-- Witness for C7 at `mkvDurBuf`. -/
theorem C7_witness :
    1 ≤ (1000000 : Nat) ∧
    (⟨F64.fin 5, 0, "matroska", [mkvMinStream], []⟩ : QuickProbeResult).duration =
      F64.div (F64.mul (F64.fin 5000) (F64.fin ((1000000 : Nat) : ℚ)))
        (F64.fin 1000000000) := by
  have h := C7_duration_formula.1 mkvDurBuf
    ⟨"matroska", some (F64.fin 5000), 1000000, [⟨some "video", none, none, none,
      none, none, none, none, none, none⟩]⟩
    ⟨F64.fin 5, 0, "matroska", [mkvMinStream], []⟩ rfl rfl
  exact ⟨h.1, h.2.trans (by decide)⟩

theorem sanitizeDuration_spec (p0 : QuickProbeResult) :
    (sanitizeDuration p0).duration.isFinite = true ∧
    ∃ q : ℚ, (sanitizeDuration p0).duration = F64.fin q ∧ 0 ≤ q := by
  unfold sanitizeDuration
  split
  · exact ⟨rfl, 0, rfl, le_refl 0⟩
  · rename_i h
    push_neg at h
    obtain ⟨hfin, hblt⟩ := h
    rcases hq : p0.duration with q | _ | _ | _
    · rw [hq] at hblt
      refine ⟨rfl, q, rfl, ?_⟩
      have hnlt : ¬ q < 0 := fun hlt => hblt ((ratLt_iff q 0).mpr hlt)
      exact le_of_not_lt hnlt
    · exact absurd (hq ▸ rfl) hfin
    · exact absurd (hq ▸ rfl) hfin
    · exact absurd (hq ▸ rfl) hfin

/-- C9: every successfully probed result carries a finite, nonnegative
duration: the sanitization step replaces a non-finite or negative
computed duration by 0 before the result is handed to the caller. -/
theorem C9_duration_sanitized (data : List Nat) (p : QuickProbeResult)
    (h : parse_media_header data = .ok (some p)) :
    p.duration.isFinite = true ∧ ∃ q : ℚ, p.duration = F64.fin q ∧ 0 ≤ q := by
  obtain ⟨p0, hp0⟩ : ∃ p0, p = sanitizeDuration p0 := by
    unfold parse_media_header at h
    obtain ⟨m, hm, h⟩ := Res.bind_ok_inv h
    rcases m with _ | p1
    · simp only [] at h
      obtain ⟨r, hr, h⟩ := Res.bind_ok_inv h
      injection h with h1
      rcases r with _ | p0
      · simp at h1
      · injection h1 with h2
        exact ⟨p0, h2.symm⟩
    · have h' : Res.ok (some (sanitizeDuration p1)) = Res.ok (some p) := h
      injection h' with h1
      injection h1 with h2
      exact ⟨p1, h2.symm⟩
  rw [hp0]
  exact sanitizeDuration_spec p0

/-- Witness for C9 at `mp4Buf`. -/
theorem C9_witness :
    parse_media_header mp4Buf = .ok (some mp4BufResult) ∧
    (mp4BufResult.duration.isFinite = true ∧
      ∃ q : ℚ, mp4BufResult.duration = F64.fin q ∧ 0 ≤ q) :=
  ⟨rfl, C9_duration_sanitized mp4Buf mp4BufResult rfl⟩

/-- C10: at any Matroska nesting level, an element whose computed
payload is empty (in particular any element of declared size 0) stops
the scan of that level: the element is not dispatched to any handler,
no further sibling at that level is read, and the state collected from
earlier siblings is returned unchanged; concretely, a TrackEntry whose
TrackType is followed by a zero-size Void element keeps the collected
video kind while the CodecID sibling behind the Void is never seen, so
the codec stays `unknown`. -/
theorem C10_empty_payload_stops_level :
    (∀ (σ : Type) (data : List Nat) (ed : Nat)
        (handle : Nat → Nat → Nat → σ → Res σ) (fuel offset : Nat) (st : σ)
        (id id_len size size_len : Nat),
      offset < ed →
      read_ebml_id data offset = some (id, id_len) →
      read_ebml_size data (offset + id_len) = some (size, size_len, false) →
      offset + id_len + size_len ≤ ed →
      min (min (offset + id_len + size_len + size % 2 ^ 32) (2 ^ 32 - 1)) ed ≤ offset + id_len + size_len →
      ebmlLevel data ed handle (fuel + 1) offset st = .ok st) ∧
    parse_matroska mkvZeroSizeBuf =
      .ok (some ⟨F64.fin 0, 0, "matroska", [mkvMinStream], []⟩) := by
  constructor
  · intro σ data ed handle fuel offset st id id_len size size_len hlt hid hsz hps hempty
    rw [ebmlLevel_succ, if_pos hlt, hid]
    simp only []
    rw [hsz]
    simp only []
    rw [if_neg (by omega : ¬ed < offset + id_len + size_len)]
    simp only [Bool.false_eq_true, if_false]
    rw [if_pos hempty]
  · rfl

/-- Witness for C10's universal clause on a three-byte buffer holding a
zero-size Void element followed by one more byte. -/
theorem C10_witness :
    ebmlLevel [0xEC, 0x80, 0x86] 3 (fun _ _ _ (n : Nat) => Res.ok n) 1 0 7 = .ok 7 :=
  C10_empty_payload_stops_level.1 Nat [0xEC, 0x80, 0x86] 3
    (fun _ _ _ n => Res.ok n) 0 0 7 0xEC 1 0 1 (by decide) (by rfl) (by rfl)
    (by decide) (by decide)

/-- Counterexample to C8 as stated: a buffer whose top-level EBML
header element contains a nested DocType `webm` with non-empty text,
yet the reported format is the default `matroska`, not `webm` — the
scanner matches DocType ids only among direct top-level elements and
skips the EBML header element without descending into it. -/
theorem C8_counterexample :
    parse_matroska mkvNestedDocBuf =
      .ok (some ⟨F64.fin 0, 0, "matroska", [mkvMinStream], []⟩) ∧
    read_utf8 [0x77, 0x65, 0x62, 0x6D] = "webm" ∧
    "matroska" ≠ "webm" :=
  ⟨rfl, rfl, by decide⟩

/-- C8 (amended): the reported container format equals the DocType
text only when a DocType element (id 0x4282) with non-empty text is
dispatched as a direct top-level element: the top-level dispatcher
rewrites the format to the element text exactly then, leaves the state
unchanged on an empty text, and skips the EBML header element
(id 0x1A45DFA3) without descending into it, so a DocType nested inside
the header is never seen; end to end, a top-level DocType `webm` yields
format `webm` and a buffer without one keeps the default `matroska`. -/
theorem C8_doctype_sets_format :
    (∀ (data : List Nat) (ps pe : Nat) (st : MkvSt) (py : List Nat),
      sliceR data ps pe = .ok py →
      (read_utf8 py ≠ "" →
        mkvTopHandle data 0x4282 ps pe st =
          .ok { st with format := read_utf8 py }) ∧
      (read_utf8 py = "" → mkvTopHandle data 0x4282 ps pe st = .ok st)) ∧
    (∀ (data : List Nat) (ps pe : Nat) (st : MkvSt),
      mkvTopHandle data 0x1A45DFA3 ps pe st = .ok st) ∧
    parse_matroska mkvTopDocBuf =
      .ok (some ⟨F64.fin 0, 0, "webm", [mkvMinStream], []⟩) ∧
    parse_matroska mkvMinBuf =
      .ok (some ⟨F64.fin 0, 0, "matroska", [mkvMinStream], []⟩) := by
  refine ⟨?_, fun data ps pe st => rfl, rfl, rfl⟩
  intro data ps pe st py hslice
  constructor
  · intro hne
    unfold mkvTopHandle
    rw [if_pos rfl, hslice, Res.bind_ok]
    simp [hne]
  · intro he
    unfold mkvTopHandle
    rw [if_pos rfl, hslice, Res.bind_ok]
    simp [he]

/-- Witness for the amended C8: the top-level dispatcher on a DocType
payload `webm` rewrites the format to `webm`. -/
theorem C8_witness :
    sliceR [0x77, 0x65, 0x62, 0x6D] 0 4 = .ok [0x77, 0x65, 0x62, 0x6D] ∧
    read_utf8 [0x77, 0x65, 0x62, 0x6D] ≠ "" ∧
    mkvTopHandle [0x77, 0x65, 0x62, 0x6D] 0x4282 0 4
        ⟨"matroska", none, 1000000, []⟩ =
      .ok ⟨"webm", none, 1000000, []⟩ := by
  refine ⟨rfl, by decide, ?_⟩
  have h := (C8_doctype_sets_format.1 [0x77, 0x65, 0x62, 0x6D] 0 4
    ⟨"matroska", none, 1000000, []⟩ [0x77, 0x65, 0x62, 0x6D] rfl).1 (by decide)
  exact h.trans rfl
